import Mathlib

/-!
Shallow embedding of the printpdf-fork sources (src/svg.rs,
src/types/pdf_document.rs, src/utils.rs, src/indices.rs and the
document-info plugin) together with proofs about the claims of the
specification.  Rust `f64` values that only flow through the code as
opaque numerals are modelled as rationals (`Rat`); machine integers are
modelled as `Nat`/`Int` with explicit wrapping where it matters; Rust
panics (slice range violations, integer underflow in debug) are
modelled by `Option`, `none` meaning the call aborts.
-/

/-! ## The lopdf object model (external crate, as used by the sources) -/

/-- String format marker of `lopdf::StringFormat`. -/
inductive StrFmt where
  | Literal
  | Hexadecimal
deriving DecidableEq, Repr

/-- `lopdf::Object`, restricted to the variants the sources construct.
Dictionaries are ordered key/value lists (lopdf preserves insertion
order); streams carry their dictionary and raw content bytes. -/
inductive Obj where
  | Integer (i : Int)
  | Real (r : Rat)
  | Boolean (b : Bool)
  | Name (s : String)
  | Str (bytes : List Nat) (fmt : StrFmt)
  | Arr (xs : List Obj)
  | Dict (d : List (String × Obj))
  | Reference (id : Nat)
  | Stream (d : List (String × Obj)) (content : List Nat)
deriving Repr

/-- An ordered dictionary, as built by lopdf's `dictionary!` macro-call
sites in the sources. -/
abbrev PDict := List (String × Obj)

/-- Dictionary lookup (first matching key), `lopdf::Dictionary::get`. -/
def dictGet (d : PDict) (k : String) : Option Obj :=
  (d.find? (fun kv => kv.1 = k)).map (fun kv => kv.2)

/-- `lopdf::Dictionary::set`: replace the value of an existing key in
place, else append the new entry. -/
def dictSet (d : PDict) (k : String) (v : Obj) : PDict :=
  if d.any (fun kv => kv.1 = k) then
    d.map (fun kv => if kv.1 = k then (k, v) else kv)
  else
    d ++ [(k, v)]

/-- UTF-8 bytes of a Rust `&str` (`.as_bytes()`). -/
def strBytes (s : String) : List Nat :=
  s.toUTF8.toList.map (fun b => b.toNat)

/-! ## usvg scene-graph data (external crate, as consumed by src/svg.rs) -/

/-- `svgtypes::Color`: three 8-bit channels. -/
structure SvgColor where
  red : Nat
  green : Nat
  blue : Nat
deriving DecidableEq, Repr

/-- `svgtypes::Transform`: six affine components. -/
structure STransform where
  a : Rat
  b : Rat
  c : Rat
  d : Rat
  e : Rat
  f : Rat
deriving DecidableEq, Repr

/-- `usvg::Stop`: a gradient stop (its `offset` is the value of the
`StopOffset` wrapper). -/
structure Stop where
  offset : Rat
  color : SvgColor
deriving DecidableEq, Repr

/-- The `base` part of `usvg::LinearGradient` (`usvg::BaseGradient`). -/
structure BaseGradient where
  stops : List Stop
  transform : STransform
deriving DecidableEq, Repr

/-- `usvg::LinearGradient`. -/
structure LinearGradient where
  base : BaseGradient
  x1 : Rat
  y1 : Rat
  x2 : Rat
  y2 : Rat
deriving DecidableEq, Repr

/-! ## src/svg.rs : the shading-function builder -/

/-- `color` (src/svg.rs): normalize an 8-bit color to three `[0,1]`
reals by dividing each channel by 255. -/
def color (c : SvgColor) : List Obj :=
  [Obj.Real ((c.red : Rat) / 255),
   Obj.Real ((c.green : Rat) / 255),
   Obj.Real ((c.blue : Rat) / 255)]

/-- Rust's `slice.windows(2)` as the list of consecutive pairs. -/
def windows2 (xs : List α) : List (α × α) := xs.zip xs.tail

/-- Rust `usize` subtraction `a - b`: panics (models as `none`) on
underflow; release-mode wrapping makes the immediately following slice
index panic on the same inputs, so both build modes abort here. -/
def usizeSub (a b : Nat) : Option Nat :=
  if b ≤ a then some (a - b) else none

/-- Rust slice indexing `xs[a..b]`: panics (`none`) unless
`a ≤ b ∧ b ≤ xs.len()`. -/
def rustSlice (xs : List α) (a b : Nat) : Option (List α) :=
  if a ≤ b ∧ b ≤ xs.length then some ((xs.drop a).take (b - a)) else none

/-- The two-color `FunctionType 2` sub-function dictionary built for one
window `w` of consecutive stops in `linear_gradient_shading`. -/
def type2Fn (c0 c1 : SvgColor) : Obj :=
  Obj.Dict [("FunctionType", Obj.Integer 2),
            ("Domain", Obj.Arr [Obj.Integer 0, Obj.Integer 1]),
            ("C0", Obj.Arr (color c0)),
            ("C1", Obj.Arr (color c1)),
            ("N", Obj.Integer 1)]

/-- `[0, 1].iter().cloned().cycle().take(n)`: the first `n` entries of
the alternating 0,1 sequence. -/
def encodeCycle (n : Nat) : List Obj :=
  (List.range n).map (fun i => Obj.Integer (if i % 2 = 0 then 0 else 1))

/-- `linear_gradient_shading` (src/svg.rs): the axial shading dictionary
for a linear gradient.  The `Bounds` entry slices
`stops[1..stops.len() - 1]`, which panics when there are fewer than two
stops; the `Encode` entry guards the same subtraction with
`checked_sub(1).unwrap_or(0)` (natural subtraction). -/
def linear_gradient_shading (lg : LinearGradient) : Option PDict := do
  let stops := lg.base.stops
  let hi ← usizeSub stops.length 1
  let interior ← rustSlice stops 1 hi
  pure [("ShadingType", Obj.Integer 2),
        ("ColorSpace", Obj.Name "DeviceRGB"),
        ("Coords", Obj.Arr [Obj.Real lg.x1, Obj.Real lg.y1,
                            Obj.Real lg.x2, Obj.Real lg.y2]),
        ("Extend", Obj.Arr [Obj.Boolean true, Obj.Boolean true]),
        ("Function", Obj.Dict
          [("FunctionType", Obj.Integer 3),
           ("Domain", Obj.Arr [Obj.Integer 0, Obj.Integer 1]),
           ("Functions", Obj.Arr ((windows2 stops).map
              (fun w => type2Fn w.1.color w.2.color))),
           ("Bounds", Obj.Arr (interior.map (fun s => Obj.Real s.offset))),
           ("Encode", Obj.Arr (encodeCycle (2 * (stops.length - 1))))])]

/-! ## usvg paint / path data (external crate, as consumed by src/svg.rs) -/

/-- `usvg::Paint`: a solid color or a reference into the defs table. -/
inductive SPaint where
  | pcolor (c : SvgColor)
  | link (id : String)
deriving DecidableEq, Repr

/-- `usvg::Fill` (the `rule` field is never read by the sources). -/
structure SFill where
  paint : SPaint
  opacity : Rat
deriving DecidableEq, Repr

/-- `usvg::LineCap`. -/
inductive SLineCap where
  | butt
  | round
  | square
deriving DecidableEq, Repr

/-- `usvg::Stroke`, restricted to the fields src/svg.rs reads. -/
structure SStroke where
  dasharray : Option (List Rat)
  dashoffset : Rat
  width : Rat
  linecap : SLineCap
  paint : SPaint
deriving DecidableEq, Repr

/-- `usvg::PathSegment`. -/
inductive PathSegment where
  | moveTo (x y : Rat)
  | lineTo (x y : Rat)
  | curveTo (x1 y1 x2 y2 x y : Rat)
  | closePath
deriving DecidableEq, Repr

/-- `usvg::Path`, restricted to the fields src/svg.rs reads. -/
structure SPath where
  fill : Option SFill
  stroke : Option SStroke
  transform : STransform
  data : List PathSegment
deriving DecidableEq, Repr

/-- A node kind found in the defs table (`usvg::NodeKind` as matched by
`draw_path`). -/
inductive DefNode where
  | linearGradient (lg : LinearGradient)
  | radialGradient
  | patternDef
  | otherDef
deriving DecidableEq, Repr

/-- The gradient-definitions side of `usvg::Tree`: `defs_by_id` resolves
an identifier to the defs node carrying it. -/
structure SvgTree where
  defs : List (String × DefNode)

/-- `tree.defs_by_id(id)` (first matching definition). -/
def defs_by_id (tree : SvgTree) (id : String) : Option DefNode :=
  (tree.defs.find? (fun kv => kv.1 = id)).map (fun kv => kv.2)

/-- The view-box rectangle of the `Svg` root node (`svg.view_box.rect`),
restricted to the origin read by `draw_node`. -/
structure SRect where
  x : Rat
  y : Rat
deriving DecidableEq, Repr

/-- The kind part of a renderable scene node (`usvg::NodeKind` as
matched by `draw_node`). -/
inductive SceneKind where
  | svgRoot (viewBox : SRect)
  | group (transform : STransform)
  | path (p : SPath)
  | other

/-- A `usvg::Node`: its kind plus its ordered children. -/
inductive SceneNode where
  | node (kind : SceneKind) (children : List SceneNode)

/-! ## src/svg.rs : the renderer

`PdfLayerReference` belongs to this repository but is not among the
given sources; its primitives are modelled from the spec. -/

/-- A single content-stream operation (`lopdf::content::Operation`). -/
structure Op where
  name : String
  operands : List Obj
deriving Repr

/-- Modelled from the spec: a `PdfLayerReference` during rendering owns
a content-operator buffer plus a resource table of the patterns added
to it (`add_pattern`).  Only these two parts are observable from the
renderer. -/
structure LayerState where
  ops : List Op
  patterns : List PDict
deriving Repr

/-- `layer.add_op(op)`: append one operation to the content buffer. -/
def addLayerOp (st : LayerState) (o : Op) : LayerState :=
  { st with ops := st.ops ++ [o] }

/-- `layer.add_ops(ops)`: append a batch of operations. -/
def addLayerOps (st : LayerState) (os : List Op) : LayerState :=
  { st with ops := st.ops ++ os }

/-- Modelled from the spec: `layer.save_graphics_state()` emits the
state-save operator. -/
def saveGraphicsStateOp : Op := ⟨"q", []⟩

/-- Modelled from the spec: `layer.restore_graphics_state()` emits the
state-restore operator. -/
def restoreGraphicsStateOp : Op := ⟨"Q", []⟩

/-- Modelled from the spec: `layer.set_fill_color(Rgb::new(r/255, g/255,
b/255, None))` emits one solid-fill-color operator with the three
normalized channels. -/
def setFillColorOp (c : SvgColor) : Op :=
  ⟨"rg", [Obj.Real ((c.red : Rat) / 255), Obj.Real ((c.green : Rat) / 255),
          Obj.Real ((c.blue : Rat) / 255)]⟩

/-- Modelled from the spec: `layer.set_fill_alpha(a)` applies the fill
alpha as a separate graphics-state operator, not baked into the color. -/
def setFillAlphaOp (a : Rat) : Op := ⟨"gs", [Obj.Real a]⟩

/-- Modelled from the spec: `layer.set_outline_thickness(w)` emits the
stroke-width operator. -/
def setOutlineThicknessOp (w : Rat) : Op := ⟨"w", [Obj.Real w]⟩

/-- Modelled from the spec: `layer.set_line_cap_style(c)` emits the
line-cap operator; `draw_path` maps {Butt, Round, Square} 1:1 onto
{Butt, Round, ProjectingSquare} = {0, 1, 2}. -/
def setLineCapOp (c : SLineCap) : Op :=
  ⟨"J", [Obj.Integer (match c with
                      | SLineCap.butt => 0
                      | SLineCap.round => 1
                      | SLineCap.square => 2)]⟩

/-- Modelled from the spec: `layer.set_outline_color(Rgb::new(..))`
emits one stroke-color operator with the three normalized channels. -/
def setOutlineColorOp (c : SvgColor) : Op :=
  ⟨"RG", [Obj.Real ((c.red : Rat) / 255), Obj.Real ((c.green : Rat) / 255),
          Obj.Real ((c.blue : Rat) / 255)]⟩

/-- The resource name of the pattern stored at slot `n` of the layer
resource table. -/
def patternName (n : Nat) : String := String.append "P" (toString n)

/-- Modelled from the spec: `layer.add_pattern(dict)` registers the
shading dictionary in the layer resource table and returns the fresh
resource name under which it was registered. -/
def addPattern (st : LayerState) (d : PDict) : String × LayerState :=
  (patternName st.patterns.length, { st with patterns := st.patterns ++ [d] })

/-- `apply_transform` (src/svg.rs): emit a `cm` operation with the six
affine components. -/
def applyTransformOp (t : STransform) : Op :=
  ⟨"cm", [Obj.Real t.a, Obj.Real t.b, Obj.Real t.c,
          Obj.Real t.d, Obj.Real t.e, Obj.Real t.f]⟩

/-- Rust `f64 as i64`: truncation toward zero (in-range inputs). -/
def f64AsI64 (r : Rat) : Int := Int.tdiv r.num (r.den : Int)

/-- The dash-pattern operation `draw_path` emits for a stroke: the dash
array (defaulting to empty) and the dash phase, both cast to integers. -/
def dashOp (s : SStroke) : Op :=
  ⟨"d", [Obj.Arr ((s.dasharray.getD []).map
           (fun d => Obj.Integer (f64AsI64 d))),
         Obj.Integer (f64AsI64 s.dashoffset)]⟩

/-- The one operation emitted per geometric path segment by the segment
loop of `draw_path`; `ClosePath` emits nothing (it only sets `closed`). -/
def segOp : PathSegment → Option Op
  | PathSegment.moveTo x y => some ⟨"m", [Obj.Real x, Obj.Real y]⟩
  | PathSegment.lineTo x y => some ⟨"l", [Obj.Real x, Obj.Real y]⟩
  | PathSegment.curveTo x1 y1 x2 y2 x y =>
      some ⟨"c", [Obj.Real x1, Obj.Real y1, Obj.Real x2, Obj.Real y2,
                  Obj.Real x, Obj.Real y]⟩
  | PathSegment.closePath => none

/-- Does a segment set the `closed` flag? -/
def isClose : PathSegment → Bool
  | PathSegment.closePath => true
  | _ => false

/-- The single painting operator selected by the
`(stroke.is_some(), fill.is_some(), closed)` match of `draw_path`. -/
def paintOp : Bool × Bool × Bool → Op
  | (true, true, true) => ⟨"b", []⟩
  | (true, true, false) => ⟨"f", []⟩
  | (true, false, true) => ⟨"s", []⟩
  | (true, false, false) => ⟨"S", []⟩
  | (false, true, _) => ⟨"f", []⟩
  | (false, false, _) => ⟨"n", []⟩

/-- The solid-fill state block of `draw_path` (src/svg.rs lines
205-214): set fill color and fill alpha when the fill is a solid color;
a gradient-reference or absent fill emits nothing here. -/
def fillStage (st : LayerState) (fill : Option SFill) : LayerState :=
  match fill with
  | some ⟨SPaint.pcolor c, opacity⟩ =>
      addLayerOp (addLayerOp st (setFillColorOp c)) (setFillAlphaOp opacity)
  | _ => st

/-- The stroke state block of `draw_path` (src/svg.rs lines 247-270):
dash array and phase, stroke width, line cap, and the stroke color when
the stroke paint is a solid color. -/
def strokeStage (st : LayerState) (stroke : Option SStroke) : LayerState :=
  match stroke with
  | some s =>
      let st := addLayerOp st (dashOp s)
      let st := addLayerOp st (setOutlineThicknessOp s.width)
      let st := addLayerOp st (setLineCapOp s.linecap)
      match s.paint with
      | SPaint.pcolor c => addLayerOp st (setOutlineColorOp c)
      | _ => st
  | none => st

/-- `draw_path` (src/svg.rs).  `none` models a panic (the gradient
branch calls `linear_gradient_shading`, which panics on fewer than two
stops). -/
def draw_path (tree : SvgTree) (path : SPath) (st : LayerState) :
    Option LayerState :=
  let st := addLayerOp st saveGraphicsStateOp
  let st := fillStage st path.fill
  let st := strokeStage st path.stroke
  let st := addLayerOp st (applyTransformOp path.transform)
  let segs := path.data.filterMap segOp
  let closed := path.data.any isClose
  match path.fill with
  | some ⟨SPaint.link id, _⟩ =>
      match defs_by_id tree id with
      | some (DefNode.linearGradient lg) => do
          let sd ← linear_gradient_shading lg
          let (pname, st) := addPattern st sd
          let st := addLayerOps st (segs ++
            [⟨"h", []⟩, ⟨"W", []⟩, ⟨"n", []⟩, ⟨"sh", [Obj.Name pname]⟩])
          some (addLayerOp st restoreGraphicsStateOp)
      | some _ => some (addLayerOp st restoreGraphicsStateOp)
      | none => some (addLayerOp st restoreGraphicsStateOp)
  | _ =>
      let st := addLayerOps st (segs ++
        [paintOp (path.stroke.isSome, path.fill.isSome, closed)])
      some (addLayerOp st restoreGraphicsStateOp)

/-- The translation `cm` the `Svg` root emits to cancel the view-box
origin. -/
def viewBoxTransformOp (vb : SRect) : Op :=
  ⟨"cm", [Obj.Real 1, Obj.Real 0, Obj.Real 0, Obj.Real 1,
          Obj.Real (-vb.x), Obj.Real (-vb.y)]⟩

mutual

/-- `draw_node` (src/svg.rs): dispatch on the node kind; `Svg` and
`Group` wrap their children in a save/restore pair, `Path` delegates to
`draw_path`, any other kind is skipped. -/
def draw_node (tree : SvgTree) : SceneNode → LayerState → Option LayerState
  | SceneNode.node (SceneKind.svgRoot vb) cs, st => do
      let st := addLayerOp st saveGraphicsStateOp
      let st := addLayerOp st (viewBoxTransformOp vb)
      let st ← draw_group tree cs st
      some (addLayerOp st restoreGraphicsStateOp)
  | SceneNode.node (SceneKind.path p) _, st => draw_path tree p st
  | SceneNode.node (SceneKind.group t) cs, st => do
      let st := addLayerOp st saveGraphicsStateOp
      let st := addLayerOp st (applyTransformOp t)
      let st ← draw_group tree cs st
      some (addLayerOp st restoreGraphicsStateOp)
  | SceneNode.node SceneKind.other _, st => some st

/-- `draw_group` (src/svg.rs): render the children in order (their
`Option<[f64; 2]>` return values are discarded; a panic propagates). -/
def draw_group (tree : SvgTree) : List SceneNode → LayerState →
    Option LayerState
  | [], st => some st
  | c :: cs, st => do
      let st ← draw_node tree c st
      draw_group tree cs st

end

/-! ## Facts about the shading-function builder (claims C1, C2) -/

lemma usizeSub_of_le {a b : Nat} (h : b ≤ a) : usizeSub a b = some (a - b) := by
  simp [usizeSub, h]

lemma rustSlice_ok {α : Type} {xs : List α} {a b : Nat} (h1 : a ≤ b)
    (h2 : b ≤ xs.length) :
    rustSlice xs a b = some ((xs.drop a).take (b - a)) := by
  simp [rustSlice, h1, h2]

lemma windows2_length {α : Type} (xs : List α) :
    (windows2 xs).length = xs.length - 1 := by
  simp [windows2]

/-- Normal form of the shading dictionary once `2 ≤ N` rules the panic
out. -/
lemma linear_gradient_shading_eq (lg : LinearGradient)
    (h : 2 ≤ lg.base.stops.length) :
    linear_gradient_shading lg = some
      [("ShadingType", Obj.Integer 2),
       ("ColorSpace", Obj.Name "DeviceRGB"),
       ("Coords", Obj.Arr [Obj.Real lg.x1, Obj.Real lg.y1,
                           Obj.Real lg.x2, Obj.Real lg.y2]),
       ("Extend", Obj.Arr [Obj.Boolean true, Obj.Boolean true]),
       ("Function", Obj.Dict
         [("FunctionType", Obj.Integer 3),
          ("Domain", Obj.Arr [Obj.Integer 0, Obj.Integer 1]),
          ("Functions", Obj.Arr ((windows2 lg.base.stops).map
             (fun w => type2Fn w.1.color w.2.color))),
          ("Bounds", Obj.Arr
            (((lg.base.stops.drop 1).take (lg.base.stops.length - 1 - 1)).map
              (fun s => Obj.Real s.offset))),
          ("Encode", Obj.Arr
            (encodeCycle (2 * (lg.base.stops.length - 1))))])] := by
  have h1 : usizeSub lg.base.stops.length 1 =
      some (lg.base.stops.length - 1) := usizeSub_of_le (by omega)
  have h2 : rustSlice lg.base.stops 1 (lg.base.stops.length - 1) =
      some ((lg.base.stops.drop 1).take (lg.base.stops.length - 1 - 1)) :=
    rustSlice_ok (by omega) (by omega)
  simp [linear_gradient_shading, h1, h2]

/-- C1: for every gradient with `N ≥ 2` stops, the shading descriptor
built by `linear_gradient_shading` contains exactly `N − 1` two-color
sub-functions (each a `FunctionType 2` dictionary whose `C0` and `C1`
are the colors of consecutive stops), a `Bounds` array with exactly the
`N − 2` interior stop offsets in order, and an `Encode` array of exactly
`2·(N − 1)` entries alternating 0,1 starting with 0, for any stop-count
parity. -/
theorem C1_shading_function_structure (lg : LinearGradient)
    (h : 2 ≤ lg.base.stops.length) :
    ∃ d fd fns bounds encode,
      linear_gradient_shading lg = some d ∧
      dictGet d "Function" = some (Obj.Dict fd) ∧
      dictGet fd "Functions" = some (Obj.Arr fns) ∧
      dictGet fd "Bounds" = some (Obj.Arr bounds) ∧
      dictGet fd "Encode" = some (Obj.Arr encode) ∧
      fns.length = lg.base.stops.length - 1 ∧
      (∀ i, i < lg.base.stops.length - 1 →
        ∃ a b sub, lg.base.stops[i]? = some a ∧
          lg.base.stops[i+1]? = some b ∧
          fns[i]? = some (Obj.Dict sub) ∧
          dictGet sub "FunctionType" = some (Obj.Integer 2) ∧
          dictGet sub "C0" = some (Obj.Arr (color a.color)) ∧
          dictGet sub "C1" = some (Obj.Arr (color b.color))) ∧
      bounds.length = lg.base.stops.length - 2 ∧
      (∀ i, i < lg.base.stops.length - 2 →
        bounds[i]? = (lg.base.stops[i+1]?).map (fun s => Obj.Real s.offset)) ∧
      encode.length = 2 * (lg.base.stops.length - 1) ∧
      (∀ i, i < 2 * (lg.base.stops.length - 1) →
        encode[i]? = some (Obj.Integer (if i % 2 = 0 then 0 else 1))) := by
  refine ⟨_, _, _, _, _, linear_gradient_shading_eq lg h, rfl, rfl, rfl, rfl,
    ?_, ?_, ?_, ?_, ?_, ?_⟩
  · rw [List.length_map, windows2_length]
  · intro i hi
    have hia : i < lg.base.stops.length := by omega
    have hib : i + 1 < lg.base.stops.length := by omega
    refine ⟨lg.base.stops[i], lg.base.stops[i+1],
      [("FunctionType", Obj.Integer 2),
       ("Domain", Obj.Arr [Obj.Integer 0, Obj.Integer 1]),
       ("C0", Obj.Arr (color (lg.base.stops[i]).color)),
       ("C1", Obj.Arr (color (lg.base.stops[i+1]).color)),
       ("N", Obj.Integer 1)],
      List.getElem?_eq_getElem hia, List.getElem?_eq_getElem hib,
      ?_, rfl, rfl, rfl⟩
    rw [List.getElem?_map, windows2]
    have : (lg.base.stops.zip lg.base.stops.tail)[i]? =
        some (lg.base.stops[i], lg.base.stops[i+1]) := by
      rw [← List.get?_eq_getElem?, List.get?_zip_eq_some]
      constructor
      · rw [List.get?_eq_getElem?]
        exact List.getElem?_eq_getElem hia
      · rw [List.get?_eq_getElem?, List.getElem?_tail]
        exact List.getElem?_eq_getElem hib
    rw [this]
    rfl
  · rw [List.length_map, List.length_take, List.length_drop]
    omega
  · intro i hi
    rw [List.getElem?_map, List.getElem?_take, if_pos (by omega),
      List.getElem?_drop]
    rw [Nat.add_comm 1 i]
  · simp [encodeCycle]
  · intro i hi
    simp [encodeCycle, List.getElem?_range, hi]

/-- A concrete three-stop gradient exercising C1. -/
def lgThreeStops : LinearGradient :=
  { base := { stops := [⟨0, ⟨255, 0, 0⟩⟩, ⟨1/2, ⟨0, 255, 0⟩⟩, ⟨1, ⟨0, 0, 255⟩⟩],
              transform := ⟨1, 0, 0, 1, 0, 0⟩ },
    x1 := 0, y1 := 0, x2 := 1, y2 := 0 }

/-- Witness for C1 at a concrete three-stop gradient. -/
theorem C1_shading_function_structure_witness :
    2 ≤ lgThreeStops.base.stops.length ∧
    (∃ d fd fns bounds encode,
      linear_gradient_shading lgThreeStops = some d ∧
      dictGet d "Function" = some (Obj.Dict fd) ∧
      dictGet fd "Functions" = some (Obj.Arr fns) ∧
      dictGet fd "Bounds" = some (Obj.Arr bounds) ∧
      dictGet fd "Encode" = some (Obj.Arr encode) ∧
      fns.length = lgThreeStops.base.stops.length - 1 ∧
      (∀ i, i < lgThreeStops.base.stops.length - 1 →
        ∃ a b sub, lgThreeStops.base.stops[i]? = some a ∧
          lgThreeStops.base.stops[i+1]? = some b ∧
          fns[i]? = some (Obj.Dict sub) ∧
          dictGet sub "FunctionType" = some (Obj.Integer 2) ∧
          dictGet sub "C0" = some (Obj.Arr (color a.color)) ∧
          dictGet sub "C1" = some (Obj.Arr (color b.color))) ∧
      bounds.length = lgThreeStops.base.stops.length - 2 ∧
      (∀ i, i < lgThreeStops.base.stops.length - 2 →
        bounds[i]? = (lgThreeStops.base.stops[i+1]?).map
          (fun s => Obj.Real s.offset)) ∧
      encode.length = 2 * (lgThreeStops.base.stops.length - 1) ∧
      (∀ i, i < 2 * (lgThreeStops.base.stops.length - 1) →
        encode[i]? = some (Obj.Integer (if i % 2 = 0 then 0 else 1)))) :=
  ⟨by decide, C1_shading_function_structure lgThreeStops (by decide)⟩

/-- C2 bears on a code bug: for `N < 2` stops the claim expects a
degenerate-but-valid shading descriptor, but the `Bounds` slice
`stops[1..stops.len() - 1]` of `linear_gradient_shading` panics (start
index 1 exceeds the end index), so the builder aborts instead of
returning. -/
theorem C2_degenerate_gradient_panics (lg : LinearGradient)
    (h : lg.base.stops.length < 2) :
    linear_gradient_shading lg = none := by
  have h0 : lg.base.stops.length = 0 ∨ lg.base.stops.length = 1 := by omega
  rcases h0 with h0 | h0 <;>
    simp [linear_gradient_shading, usizeSub, rustSlice, h0]

/-- A concrete one-stop gradient: the failing input for C2. -/
def lgOneStop : LinearGradient :=
  { base := { stops := [⟨0, ⟨0, 0, 0⟩⟩], transform := ⟨1, 0, 0, 1, 0, 0⟩ },
    x1 := 0, y1 := 0, x2 := 1, y2 := 0 }

/-- Witness for C2 at the concrete one-stop gradient. -/
theorem C2_degenerate_gradient_panics_witness :
    lgOneStop.base.stops.length < 2 ∧
    linear_gradient_shading lgOneStop = none :=
  ⟨by decide, C2_degenerate_gradient_panics lgOneStop (by decide)⟩

/-! ## Facts about the paint-operator selection of draw_path (claim C3) -/

/-- The five path-painting operator names of the final match of
`draw_path`: fill-and-stroke-close `b`, fill-only `f`, stroke-close `s`,
stroke-open `S`, no-paint `n`. -/
def isPaintingOp (o : Op) : Bool :=
  o.name == "b" || o.name == "f" || o.name == "s" || o.name == "S" ||
    o.name == "n"

/-- Path-construction operators are never painting operators. -/
lemma filter_isPaintingOp_segs (data : List PathSegment) :
    (data.filterMap segOp).filter isPaintingOp = [] := by
  induction data with
  | nil => rfl
  | cons s tl ih =>
      cases s <;> simp [List.filterMap_cons, segOp, isPaintingOp, ih]

/-- Is the fill neither a gradient reference nor otherwise a link?  This
is the guard of the solid/absent paint path of `draw_path`. -/
def solidOrAbsent (f : Option SFill) : Bool :=
  match f with
  | some ⟨SPaint.link _, _⟩ => false
  | _ => true

/-- C3: for a path whose fill is a solid color or absent, `draw_path`
emits exactly one painting operator, chosen from the triple
(stroke present?, fill present?, close-path segment seen?) by the table
(y,y,y) → `b`, (y,y,n) → `f`, (y,n,y) → `s`, (y,n,n) → `S`,
(n,y,_) → `f`, (n,n,_) → `n`. -/
theorem C3_paint_operator_table (tree : SvgTree) (path : SPath)
    (st : LayerState) (hsolid : solidOrAbsent path.fill = true) :
    ∃ st', draw_path tree path st = some st' ∧
      st'.ops.filter isPaintingOp = st.ops.filter isPaintingOp ++
        [⟨if path.stroke.isSome then
            (if path.fill.isSome then
              (if path.data.any isClose then "b" else "f")
             else (if path.data.any isClose then "s" else "S"))
          else (if path.fill.isSome then "f" else "n"), []⟩] := by
  rcases path with ⟨fill, stroke, t, data⟩
  rcases fill with _ | ⟨⟨fp, fo⟩⟩ <;>
    [skip; rcases fp with c | id] <;>
    [skip; skip; simp [solidOrAbsent] at hsolid] <;>
    rcases stroke with _ | ⟨⟨da, doff, w, cap, sp⟩⟩ <;>
    [skip; rcases sp with c2 | id2; skip; rcases sp with c2 | id2] <;>
    rcases hc : data.any isClose <;>
    refine ⟨_, rfl, ?_⟩ <;>
    simp [draw_path, fillStage, strokeStage, addLayerOp, addLayerOps,
      List.filter_append,
      filter_isPaintingOp_segs, isPaintingOp, paintOp, hc, dashOp,
      saveGraphicsStateOp, restoreGraphicsStateOp, setFillColorOp,
      setFillAlphaOp, setOutlineThicknessOp, setLineCapOp,
      setOutlineColorOp, applyTransformOp]

/-- A concrete closed path with both fill and stroke set. -/
def c3Path : SPath :=
  { fill := some ⟨SPaint.pcolor ⟨10, 20, 30⟩, 1⟩,
    stroke := some ⟨none, 0, 5, SLineCap.butt, SPaint.pcolor ⟨0, 0, 0⟩⟩,
    transform := ⟨1, 0, 0, 1, 0, 0⟩,
    data := [PathSegment.moveTo 0 0, PathSegment.lineTo 1 0,
             PathSegment.lineTo 1 1, PathSegment.closePath] }

/-- Witness for C3 at a concrete closed filled-and-stroked path. -/
theorem C3_paint_operator_table_witness :
    solidOrAbsent c3Path.fill = true ∧
    (∃ st', draw_path ⟨[]⟩ c3Path ⟨[], []⟩ = some st' ∧
      st'.ops.filter isPaintingOp =
        (LayerState.mk [] []).ops.filter isPaintingOp ++
        [⟨if c3Path.stroke.isSome then
            (if c3Path.fill.isSome then
              (if c3Path.data.any isClose then "b" else "f")
             else (if c3Path.data.any isClose then "s" else "S"))
          else (if c3Path.fill.isSome then "f" else "n"), []⟩]) :=
  ⟨rfl, C3_paint_operator_table ⟨[]⟩ c3Path ⟨[], []⟩ rfl⟩

/-! ## Facts about the gradient path of draw_path (claims C6, C7) -/

/-- The operations the solid-fill block emits, as a list. -/
def fillStageOps (fill : Option SFill) : List Op :=
  match fill with
  | some ⟨SPaint.pcolor c, opacity⟩ =>
      [setFillColorOp c, setFillAlphaOp opacity]
  | _ => []

/-- The operations the stroke block emits, as a list. -/
def strokeStageOps (stroke : Option SStroke) : List Op :=
  match stroke with
  | some s =>
      [dashOp s, setOutlineThicknessOp s.width, setLineCapOp s.linecap] ++
      (match s.paint with
       | SPaint.pcolor c => [setOutlineColorOp c]
       | _ => [])
  | none => []

lemma fillStage_eq (st : LayerState) (fill : Option SFill) :
    fillStage st fill = { st with ops := st.ops ++ fillStageOps fill } := by
  rcases fill with _ | ⟨⟨c | id, o⟩⟩ <;>
    simp [fillStage, fillStageOps, addLayerOp]

lemma strokeStage_eq (st : LayerState) (stroke : Option SStroke) :
    strokeStage st stroke =
      { st with ops := st.ops ++ strokeStageOps stroke } := by
  rcases stroke with _ | ⟨⟨da, doff, w, cap, c | id⟩⟩ <;>
    simp [strokeStage, strokeStageOps, addLayerOp]

/-- Normal form of `draw_path` when the fill is a gradient reference
that resolves to a linear gradient whose shading dictionary builds. -/
lemma draw_path_gradient_eq (tree : SvgTree) (path : SPath)
    (st : LayerState) (id : String) (opacity : Rat) (lg : LinearGradient)
    (sd : PDict) (hfill : path.fill = some ⟨SPaint.link id, opacity⟩)
    (hdefs : defs_by_id tree id = some (DefNode.linearGradient lg))
    (hsd : linear_gradient_shading lg = some sd) :
    draw_path tree path st = some
      { ops := st.ops ++ [saveGraphicsStateOp] ++
          strokeStageOps path.stroke ++ [applyTransformOp path.transform] ++
          path.data.filterMap segOp ++
          [⟨"h", []⟩, ⟨"W", []⟩, ⟨"n", []⟩,
           ⟨"sh", [Obj.Name (patternName st.patterns.length)]⟩,
           restoreGraphicsStateOp],
        patterns := st.patterns ++ [sd] } := by
  simp [draw_path, hfill, hdefs, hsd, fillStage_eq, strokeStage_eq,
    fillStageOps, addLayerOp, addLayerOps, addPattern, List.append_assoc]

/-- Normal form of `draw_path` when the fill is a gradient reference
that does not resolve to a linear gradient: the collected path ops are
dropped, only state-setting operators reach the layer. -/
lemma draw_path_unresolved_eq (tree : SvgTree) (path : SPath)
    (st : LayerState) (id : String) (opacity : Rat)
    (hfill : path.fill = some ⟨SPaint.link id, opacity⟩)
    (hdefs : ∀ lg, defs_by_id tree id ≠ some (DefNode.linearGradient lg)) :
    draw_path tree path st = some
      { ops := st.ops ++ [saveGraphicsStateOp] ++
          strokeStageOps path.stroke ++
          [applyTransformOp path.transform, restoreGraphicsStateOp],
        patterns := st.patterns } := by
  rcases hd : defs_by_id tree id with _ | (lg | _ | _ | _)
  case some.linearGradient => exact absurd hd (hdefs lg)
  all_goals
    simp [draw_path, hfill, hd, fillStage_eq, strokeStage_eq, fillStageOps,
      addLayerOp, addLayerOps, List.append_assoc]

/-- The four normal fill/stroke painting operator names (`b`, `f`, `s`,
`S`); the no-op paint `n` is deliberately excluded, the gradient path
emits it as part of its clip sequence. -/
def isFillStrokePaintOp (o : Op) : Bool :=
  o.name == "b" || o.name == "f" || o.name == "s" || o.name == "S"

lemma filter_isFillStrokePaintOp_segs (data : List PathSegment) :
    (data.filterMap segOp).filter isFillStrokePaintOp = [] := by
  induction data with
  | nil => rfl
  | cons s tl ih =>
      cases s <;> simp [List.filterMap_cons, segOp, isFillStrokePaintOp, ih]

lemma filter_isFillStrokePaintOp_strokeStageOps (stroke : Option SStroke) :
    (strokeStageOps stroke).filter isFillStrokePaintOp = [] := by
  rcases stroke with _ | ⟨⟨da, doff, w, cap, c | id⟩⟩ <;>
    simp [strokeStageOps, isFillStrokePaintOp, dashOp,
      setOutlineThicknessOp, setLineCapOp, setOutlineColorOp]

/-- C6: for a path whose fill is a gradient reference resolving to a
linear gradient (with a buildable shading dictionary), `draw_path`
emits, after the path-construction operators, the sequence close-path
`h`, clip `W`, no-op paint `n`, shading-paint `sh` naming the pattern
built from that gradient — and no normal fill or stroke painting
operator. -/
theorem C6_gradient_fill_clip_shading (tree : SvgTree) (path : SPath)
    (st : LayerState) (id : String) (opacity : Rat) (lg : LinearGradient)
    (hfill : path.fill = some ⟨SPaint.link id, opacity⟩)
    (hdefs : defs_by_id tree id = some (DefNode.linearGradient lg))
    (hstops : 2 ≤ lg.base.stops.length) :
    ∃ st' sd, linear_gradient_shading lg = some sd ∧
      draw_path tree path st = some st' ∧
      st'.patterns = st.patterns ++ [sd] ∧
      (∃ pre, st'.ops = st.ops ++ pre ++ path.data.filterMap segOp ++
        [⟨"h", []⟩, ⟨"W", []⟩, ⟨"n", []⟩,
         ⟨"sh", [Obj.Name (patternName st.patterns.length)]⟩,
         restoreGraphicsStateOp]) ∧
      st'.ops.filter isFillStrokePaintOp =
        st.ops.filter isFillStrokePaintOp := by
  have hsd := linear_gradient_shading_eq lg hstops
  have heq := draw_path_gradient_eq tree path st id opacity lg _
    hfill hdefs hsd
  refine ⟨_, _, hsd, heq, by simp, ?_, ?_⟩
  · exact ⟨[saveGraphicsStateOp] ++ strokeStageOps path.stroke ++
      [applyTransformOp path.transform], by simp [List.append_assoc]⟩
  · simp [List.filter_append, filter_isFillStrokePaintOp_segs,
      filter_isFillStrokePaintOp_strokeStageOps, isFillStrokePaintOp,
      saveGraphicsStateOp, restoreGraphicsStateOp, applyTransformOp]

/-- A concrete two-stop gradient for the C6 witness. -/
def lgTwoStops : LinearGradient :=
  { base := { stops := [⟨0, ⟨255, 255, 255⟩⟩, ⟨1, ⟨0, 0, 0⟩⟩],
              transform := ⟨1, 0, 0, 1, 0, 0⟩ },
    x1 := 0, y1 := 0, x2 := 1, y2 := 0 }

/-- A defs table binding "grad" to the two-stop linear gradient. -/
def c6Tree : SvgTree := ⟨[("grad", DefNode.linearGradient lgTwoStops)]⟩

/-- A concrete path whose fill references "grad". -/
def c6Path : SPath :=
  { fill := some ⟨SPaint.link "grad", 1⟩,
    stroke := none,
    transform := ⟨1, 0, 0, 1, 0, 0⟩,
    data := [PathSegment.moveTo 0 0, PathSegment.lineTo 1 0,
             PathSegment.lineTo 1 1] }

/-- Witness for C6 at the concrete gradient-filled path. -/
theorem C6_gradient_fill_clip_shading_witness :
    c6Path.fill = some ⟨SPaint.link "grad", 1⟩ ∧
    defs_by_id c6Tree "grad" = some (DefNode.linearGradient lgTwoStops) ∧
    2 ≤ lgTwoStops.base.stops.length ∧
    (∃ st' sd, linear_gradient_shading lgTwoStops = some sd ∧
      draw_path c6Tree c6Path ⟨[], []⟩ = some st' ∧
      st'.patterns = (LayerState.mk [] []).patterns ++ [sd] ∧
      (∃ pre, st'.ops = (LayerState.mk [] []).ops ++ pre ++
        c6Path.data.filterMap segOp ++
        [⟨"h", []⟩, ⟨"W", []⟩, ⟨"n", []⟩,
         ⟨"sh", [Obj.Name (patternName
           (LayerState.mk [] []).patterns.length)]⟩,
         restoreGraphicsStateOp]) ∧
      st'.ops.filter isFillStrokePaintOp =
        (LayerState.mk [] []).ops.filter isFillStrokePaintOp) :=
  ⟨rfl, rfl, by decide,
   C6_gradient_fill_clip_shading c6Tree c6Path ⟨[], []⟩ "grad" 1 lgTwoStops
     rfl rfl (by decide)⟩

/-- C7 bears on a correction: when a gradient-reference fill does not
resolve to a linear gradient, the collected path-construction and
painting operators are indeed discarded and the stroke-state operators
remain, but no fill-alpha operator was ever emitted for a
gradient-reference fill (the solid-fill block only matches solid
colors), so nothing fill-related "remains" in the stream. -/
theorem C7_unresolved_gradient_ref_discards_path (tree : SvgTree)
    (path : SPath) (st : LayerState) (id : String) (opacity : Rat)
    (hfill : path.fill = some ⟨SPaint.link id, opacity⟩)
    (hdefs : ∀ lg, defs_by_id tree id ≠ some (DefNode.linearGradient lg)) :
    ∃ st', draw_path tree path st = some st' ∧
      st'.patterns = st.patterns ∧
      st'.ops = st.ops ++ [saveGraphicsStateOp] ++
        strokeStageOps path.stroke ++
        [applyTransformOp path.transform, restoreGraphicsStateOp] := by
  exact ⟨_, draw_path_unresolved_eq tree path st id opacity hfill hdefs,
    rfl, rfl⟩

/-- A defs table in which "g1" names a radial gradient (so the fill
reference does not resolve to a linear gradient). -/
def c7Tree : SvgTree := ⟨[("g1", DefNode.radialGradient)]⟩

/-- A stroked path whose fill references the radial gradient "g1". -/
def c7Path : SPath :=
  { fill := some ⟨SPaint.link "g1", 1/2⟩,
    stroke := some ⟨none, 0, 2, SLineCap.round, SPaint.pcolor ⟨9, 9, 9⟩⟩,
    transform := ⟨1, 0, 0, 1, 0, 0⟩,
    data := [PathSegment.moveTo 0 0, PathSegment.lineTo 5 5] }

lemma c7Tree_not_linear (lg : LinearGradient) :
    defs_by_id c7Tree "g1" ≠ some (DefNode.linearGradient lg) := by
  intro h
  simp [defs_by_id, c7Tree] at h

/-- Witness for the amended C7 at the concrete unresolved-gradient
path. -/
theorem C7_unresolved_gradient_ref_discards_path_witness :
    c7Path.fill = some ⟨SPaint.link "g1", 1/2⟩ ∧
    (∀ lg, defs_by_id c7Tree "g1" ≠ some (DefNode.linearGradient lg)) ∧
    (∃ st', draw_path c7Tree c7Path ⟨[], []⟩ = some st' ∧
      st'.patterns = (LayerState.mk [] []).patterns ∧
      st'.ops = (LayerState.mk [] []).ops ++ [saveGraphicsStateOp] ++
        strokeStageOps c7Path.stroke ++
        [applyTransformOp c7Path.transform, restoreGraphicsStateOp]) :=
  ⟨rfl, c7Tree_not_linear,
   C7_unresolved_gradient_ref_discards_path c7Tree c7Path ⟨[], []⟩ "g1"
     (1/2) rfl c7Tree_not_linear⟩

/-- Counterexample to C7 as stated: at the concrete unresolved-gradient
path the emitted stream contains no fill-alpha operator at all, whereas
the claim asserts the fill-alpha remains in the stream (the solid-fill
block never matches a gradient-reference fill, so no fill-alpha was
ever emitted). -/
theorem C7_fill_alpha_counterexample :
    ¬ (∃ st', draw_path c7Tree c7Path ⟨[], []⟩ = some st' ∧
        0 < st'.ops.countP (fun o => o.name == "gs")) := by
  rintro ⟨st', heq, hpos⟩
  rw [draw_path_unresolved_eq c7Tree c7Path ⟨[], []⟩ "g1" (1/2) rfl
    c7Tree_not_linear] at heq
  cases heq
  simp [c7Path, strokeStageOps, dashOp, setOutlineThicknessOp,
    setLineCapOp, setOutlineColorOp, saveGraphicsStateOp,
    restoreGraphicsStateOp, applyTransformOp, List.countP_cons,
    List.countP_append] at hpos

/-! ## Graphics-state balance of the renderer (claim C4) -/

/-- Number of state-save operators in an operation list. -/
def saveCount (l : List Op) : Nat := l.countP (fun o => o.name == "q")

/-- Number of state-restore operators in an operation list. -/
def restoreCount (l : List Op) : Nat := l.countP (fun o => o.name == "Q")

/-- Saves and restores balance out and every prefix has at least as many
saves as restores (strict nesting). -/
def BalancedOps (l : List Op) : Prop :=
  saveCount l = restoreCount l ∧
  ∀ k, restoreCount (l.take k) ≤ saveCount (l.take k)

/-- An operation list free of both save and restore operators. -/
def QQFree (l : List Op) : Prop := saveCount l = 0 ∧ restoreCount l = 0

lemma qqFree_nil : QQFree [] := ⟨rfl, rfl⟩

lemma saveCount_append (a b : List Op) :
    saveCount (a ++ b) = saveCount a + saveCount b :=
  List.countP_append _ a b

lemma restoreCount_append (a b : List Op) :
    restoreCount (a ++ b) = restoreCount a + restoreCount b :=
  List.countP_append _ a b

lemma qqFree_append {a b : List Op} (ha : QQFree a) (hb : QQFree b) :
    QQFree (a ++ b) := by
  obtain ⟨ha1, ha2⟩ := ha
  obtain ⟨hb1, hb2⟩ := hb
  exact ⟨by rw [saveCount_append, ha1, hb1],
         by rw [restoreCount_append, ha2, hb2]⟩

lemma balanced_of_qqFree {l : List Op} (h : QQFree l) : BalancedOps l := by
  obtain ⟨h1, h2⟩ := h
  refine ⟨h1.trans h2.symm, fun k => ?_⟩
  have hr : restoreCount (l.take k) ≤ restoreCount l :=
    List.Sublist.countP_le _ (List.take_sublist k l)
  omega

lemma balanced_append {a b : List Op} (ha : BalancedOps a)
    (hb : BalancedOps b) : BalancedOps (a ++ b) := by
  obtain ⟨ha1, ha2⟩ := ha
  obtain ⟨hb1, hb2⟩ := hb
  constructor
  · simp only [saveCount, restoreCount, List.countP_append] at *
    omega
  · intro k
    rw [List.take_append_eq_append_take]
    simp only [saveCount, restoreCount, List.countP_append] at *
    have h1 := ha2 k
    have h2 := hb2 (k - a.length)
    simp only [saveCount, restoreCount] at h1 h2
    omega

lemma saveCount_cons_save (l : List Op) :
    saveCount (saveGraphicsStateOp :: l) = saveCount l + 1 := by
  simp [saveCount, List.countP_cons, saveGraphicsStateOp]

lemma restoreCount_cons_save (l : List Op) :
    restoreCount (saveGraphicsStateOp :: l) = restoreCount l := by
  simp [restoreCount, List.countP_cons, saveGraphicsStateOp]

lemma balanced_wrap {mid : List Op} (h : BalancedOps mid) :
    BalancedOps (saveGraphicsStateOp :: (mid ++ [restoreGraphicsStateOp])) := by
  obtain ⟨h1, h2⟩ := h
  have hs1 : saveCount [restoreGraphicsStateOp] = 0 := rfl
  have hr1 : restoreCount [restoreGraphicsStateOp] = 1 := rfl
  constructor
  · rw [saveCount_cons_save, restoreCount_cons_save, saveCount_append,
      restoreCount_append, hs1, hr1, h1]
  · intro k
    cases k with
    | zero => exact Nat.le_refl 0
    | succ j =>
        rw [List.take_succ_cons, saveCount_cons_save, restoreCount_cons_save,
          List.take_append_eq_append_take, saveCount_append,
          restoreCount_append]
        have hmid := h2 j
        rcases j - mid.length with _ | m
        · have hz1 : saveCount (List.take 0 [restoreGraphicsStateOp]) = 0 :=
            rfl
          have hz2 : restoreCount (List.take 0 [restoreGraphicsStateOp]) = 0 :=
            rfl
          omega
        · have ht : List.take (m + 1) [restoreGraphicsStateOp] =
              [restoreGraphicsStateOp] := by simp
          rw [ht, hs1, hr1]
          omega

/-- The two stage blocks and the path-segment/painting operators never
touch the graphics-state stack. -/
lemma qqFree_fillStageOps (fill : Option SFill) :
    QQFree (fillStageOps fill) := by
  rcases fill with _ | ⟨⟨c | id, o⟩⟩ <;>
    simp [QQFree, fillStageOps, saveCount, restoreCount, setFillColorOp,
      setFillAlphaOp]

lemma qqFree_strokeStageOps (stroke : Option SStroke) :
    QQFree (strokeStageOps stroke) := by
  rcases stroke with _ | ⟨⟨da, doff, w, cap, c | id⟩⟩ <;>
    simp [QQFree, strokeStageOps, saveCount, restoreCount, dashOp,
      setOutlineThicknessOp, setLineCapOp, setOutlineColorOp]

lemma qqFree_segs (data : List PathSegment) :
    QQFree (data.filterMap segOp) := by
  induction data with
  | nil => exact qqFree_nil
  | cons s tl ih =>
      have ih1 := ih.1
      have ih2 := ih.2
      simp only [saveCount] at ih1
      simp only [restoreCount] at ih2
      cases s <;>
        refine ⟨?_, ?_⟩ <;>
          simp [List.filterMap_cons, segOp, saveCount, restoreCount,
            List.countP_cons, ih1, ih2]

lemma qqFree_paintOp (t : Bool × Bool × Bool) : QQFree [paintOp t] := by
  rcases t with ⟨_ | _, _ | _, _ | _⟩ <;>
    simp [QQFree, paintOp, saveCount, restoreCount]

lemma qqFree_applyTransformOp (t : STransform) :
    QQFree [applyTransformOp t] := by
  simp [QQFree, applyTransformOp, saveCount, restoreCount]

lemma qqFree_gradientTail (nm : String) :
    QQFree [(⟨"h", []⟩ : Op), ⟨"W", []⟩, ⟨"n", []⟩, ⟨"sh", [Obj.Name nm]⟩] := by
  simp [QQFree, saveCount, restoreCount]

/-- Normal form of `draw_path` when the fill is a solid color or
absent. -/
lemma draw_path_solid_eq (tree : SvgTree) (path : SPath) (st : LayerState)
    (hsolid : solidOrAbsent path.fill = true) :
    draw_path tree path st = some
      { ops := st.ops ++ [saveGraphicsStateOp] ++ fillStageOps path.fill ++
          strokeStageOps path.stroke ++ [applyTransformOp path.transform] ++
          path.data.filterMap segOp ++
          [paintOp (path.stroke.isSome, path.fill.isSome,
            path.data.any isClose)] ++
          [restoreGraphicsStateOp],
        patterns := st.patterns } := by
  rcases path with ⟨fill, stroke, t, data⟩
  rcases fill with _ | ⟨⟨c | id, o⟩⟩
  · simp [draw_path, fillStage_eq, strokeStage_eq, fillStageOps, addLayerOp,
      addLayerOps, List.append_assoc]
  · simp [draw_path, fillStage_eq, strokeStage_eq, fillStageOps, addLayerOp,
      addLayerOps, List.append_assoc]
  · simp [solidOrAbsent] at hsolid

/-- Whatever branch `draw_path` takes, the operations it appends are one
save, a save/restore-free middle, and one restore. -/
lemma draw_path_balanced_delta (tree : SvgTree) (path : SPath)
    (st st' : LayerState) (h : draw_path tree path st = some st') :
    ∃ mid, st'.ops = st.ops ++
        (saveGraphicsStateOp :: (mid ++ [restoreGraphicsStateOp])) ∧
      QQFree mid := by
  by_cases hsolid : solidOrAbsent path.fill = true
  · rw [draw_path_solid_eq tree path st hsolid] at h
    cases h
    refine ⟨fillStageOps path.fill ++ strokeStageOps path.stroke ++
      [applyTransformOp path.transform] ++ path.data.filterMap segOp ++
      [paintOp (path.stroke.isSome, path.fill.isSome,
        path.data.any isClose)], by simp, ?_⟩
    exact qqFree_append (qqFree_append (qqFree_append (qqFree_append
      (qqFree_fillStageOps _) (qqFree_strokeStageOps _))
      (qqFree_applyTransformOp _)) (qqFree_segs _)) (qqFree_paintOp _)
  · have hlink : ∃ id opacity,
        path.fill = some ⟨SPaint.link id, opacity⟩ := by
      rcases hf : path.fill with _ | ⟨⟨c | id, o⟩⟩ <;>
        rw [hf] at hsolid <;> simp [solidOrAbsent] at hsolid
      exact ⟨id, o, rfl⟩
    obtain ⟨id, opacity, hfill⟩ := hlink
    rcases hd : defs_by_id tree id with _ | (lg | _ | _ | _)
    pick_goal 2
    · rcases hsd : linear_gradient_shading lg with _ | sd
      · exfalso
        simp [draw_path, hfill, hd, hsd] at h
      · rw [draw_path_gradient_eq tree path st id opacity lg sd hfill hd
          hsd] at h
        cases h
        refine ⟨strokeStageOps path.stroke ++
          [applyTransformOp path.transform] ++ path.data.filterMap segOp ++
          [⟨"h", []⟩, ⟨"W", []⟩, ⟨"n", []⟩,
           ⟨"sh", [Obj.Name (patternName st.patterns.length)]⟩],
          by simp, ?_⟩
        exact qqFree_append (qqFree_append (qqFree_append
          (qqFree_strokeStageOps _) (qqFree_applyTransformOp _))
          (qqFree_segs _)) (qqFree_gradientTail _)
    all_goals
      rw [draw_path_unresolved_eq tree path st id opacity hfill
        (by intro lg2 h2; rw [hd] at h2; simp at h2)] at h
    all_goals
      cases h
    all_goals
      exact ⟨strokeStageOps path.stroke ++ [applyTransformOp path.transform],
        by simp, qqFree_append (qqFree_strokeStageOps _)
          (qqFree_applyTransformOp _)⟩

mutual

/-- Every successful `draw_node` call appends a balanced, strictly
nested block of operations. -/
lemma draw_node_balanced (tree : SvgTree) (n : SceneNode)
    (st st' : LayerState) (h : draw_node tree n st = some st') :
    ∃ delta, st'.ops = st.ops ++ delta ∧ BalancedOps delta :=
  match n with
  | SceneNode.node (SceneKind.svgRoot vb) cs => by
      simp only [draw_node] at h
      rcases hg : draw_group tree cs
          (addLayerOp (addLayerOp st saveGraphicsStateOp)
            (viewBoxTransformOp vb)) with _ | st3
      · rw [hg] at h
        exact Option.noConfusion h
      · rw [hg] at h
        have h2 : addLayerOp st3 restoreGraphicsStateOp = st' :=
          Option.some.inj h
        obtain ⟨dg, hops, hbal⟩ := draw_group_balanced tree cs _ st3 hg
        cases h2
        refine ⟨saveGraphicsStateOp ::
          (((viewBoxTransformOp vb :: dg) ++ [restoreGraphicsStateOp])), ?_, ?_⟩
        · simp [addLayerOp] at hops ⊢
          rw [hops]
          simp
        · exact balanced_wrap (by
            have : viewBoxTransformOp vb :: dg = [viewBoxTransformOp vb] ++ dg :=
              rfl
            rw [this]
            exact balanced_append (balanced_of_qqFree
              ⟨rfl, rfl⟩) hbal)
  | SceneNode.node (SceneKind.group t) cs => by
      simp only [draw_node] at h
      rcases hg : draw_group tree cs
          (addLayerOp (addLayerOp st saveGraphicsStateOp)
            (applyTransformOp t)) with _ | st3
      · rw [hg] at h
        exact Option.noConfusion h
      · rw [hg] at h
        have h2 : addLayerOp st3 restoreGraphicsStateOp = st' :=
          Option.some.inj h
        obtain ⟨dg, hops, hbal⟩ := draw_group_balanced tree cs _ st3 hg
        cases h2
        refine ⟨saveGraphicsStateOp ::
          (((applyTransformOp t :: dg) ++ [restoreGraphicsStateOp])), ?_, ?_⟩
        · simp [addLayerOp] at hops ⊢
          rw [hops]
          simp
        · exact balanced_wrap (by
            have : applyTransformOp t :: dg = [applyTransformOp t] ++ dg :=
              rfl
            rw [this]
            exact balanced_append (balanced_of_qqFree
              ⟨rfl, rfl⟩) hbal)
  | SceneNode.node (SceneKind.path p) cs => by
      simp only [draw_node] at h
      obtain ⟨mid, hops, hfree⟩ := draw_path_balanced_delta tree p st st' h
      exact ⟨_, hops, balanced_wrap (balanced_of_qqFree hfree)⟩
  | SceneNode.node SceneKind.other cs => by
      simp only [draw_node, Option.some.injEq] at h
      cases h
      exact ⟨[], by simp, balanced_of_qqFree qqFree_nil⟩

/-- Every successful `draw_group` call appends a balanced, strictly
nested block of operations. -/
lemma draw_group_balanced (tree : SvgTree) (cs : List SceneNode)
    (st st' : LayerState) (h : draw_group tree cs st = some st') :
    ∃ delta, st'.ops = st.ops ++ delta ∧ BalancedOps delta :=
  match cs with
  | [] => by
      simp only [draw_group, Option.some.injEq] at h
      cases h
      exact ⟨[], by simp, balanced_of_qqFree qqFree_nil⟩
  | c :: cs2 => by
      simp only [draw_group] at h
      rcases hn : draw_node tree c st with _ | st1
      · rw [hn] at h
        exact Option.noConfusion h
      · rw [hn] at h
        have h2 : draw_group tree cs2 st1 = some st' := h
        obtain ⟨d1, ho1, hb1⟩ := draw_node_balanced tree c st st1 hn
        obtain ⟨d2, ho2, hb2⟩ := draw_group_balanced tree cs2 st1 st' h2
        exact ⟨d1 ++ d2, by rw [ho2, ho1, List.append_assoc],
          balanced_append hb1 hb2⟩

end

/-- C4: for every scene node the renderer processes, a successful call
appends operations whose state-saves and state-restores are equal in
number and strictly nested (no prefix closes more states than it
opened), so the graphics-state stack returns to its pre-call depth on
every execution path, including skipped children and unsupported node
kinds. -/
theorem C4_graphics_state_balance (tree : SvgTree) (n : SceneNode)
    (st st' : LayerState) (h : draw_node tree n st = some st') :
    ∃ delta, st'.ops = st.ops ++ delta ∧
      saveCount delta = restoreCount delta ∧
      ∀ k, restoreCount (delta.take k) ≤ saveCount (delta.take k) := by
  obtain ⟨delta, h1, h2, h3⟩ := draw_node_balanced tree n st st' h
  exact ⟨delta, h1, h2, h3⟩

/-- A concrete unfilled stroked path. -/
def c4Path : SPath :=
  { fill := none,
    stroke := some ⟨none, 0, 1, SLineCap.butt, SPaint.pcolor ⟨0, 0, 0⟩⟩,
    transform := ⟨1, 0, 0, 1, 0, 0⟩,
    data := [PathSegment.moveTo 0 0, PathSegment.lineTo 2 3] }

/-- A concrete group holding a path child and an unsupported child. -/
def c4Node : SceneNode :=
  SceneNode.node (SceneKind.group ⟨1, 0, 0, 1, 5, 5⟩)
    [SceneNode.node (SceneKind.path c4Path) [],
     SceneNode.node SceneKind.other []]

/-- What the renderer emits for `c4Node` on an empty layer. -/
def c4Out : LayerState :=
  { ops := [⟨"q", []⟩,
      ⟨"cm", [Obj.Real 1, Obj.Real 0, Obj.Real 0, Obj.Real 1, Obj.Real 5,
              Obj.Real 5]⟩,
      ⟨"q", []⟩,
      ⟨"d", [Obj.Arr [], Obj.Integer 0]⟩,
      ⟨"w", [Obj.Real 1]⟩,
      ⟨"J", [Obj.Integer 0]⟩,
      ⟨"RG", [Obj.Real 0, Obj.Real 0, Obj.Real 0]⟩,
      ⟨"cm", [Obj.Real 1, Obj.Real 0, Obj.Real 0, Obj.Real 1, Obj.Real 0,
              Obj.Real 0]⟩,
      ⟨"m", [Obj.Real 0, Obj.Real 0]⟩,
      ⟨"l", [Obj.Real 2, Obj.Real 3]⟩,
      ⟨"S", []⟩,
      ⟨"Q", []⟩,
      ⟨"Q", []⟩], patterns := [] }

lemma c4_eval : draw_node ⟨[]⟩ c4Node ⟨[], []⟩ = some c4Out := by
  simp [c4Node, c4Path, c4Out, draw_node, draw_group, draw_path, fillStage,
    strokeStage, addLayerOp, addLayerOps, saveGraphicsStateOp,
    restoreGraphicsStateOp, viewBoxTransformOp, applyTransformOp, dashOp,
    setOutlineThicknessOp, setLineCapOp, setOutlineColorOp, segOp, paintOp,
    f64AsI64, solidOrAbsent, isClose]

/-- Witness for C4 at the concrete group node. -/
theorem C4_graphics_state_balance_witness :
    draw_node ⟨[]⟩ c4Node ⟨[], []⟩ = some c4Out ∧
    (∃ delta, c4Out.ops = (LayerState.mk [] []).ops ++ delta ∧
      saveCount delta = restoreCount delta ∧
      ∀ k, restoreCount (delta.take k) ≤ saveCount (delta.take k)) :=
  ⟨c4_eval, C4_graphics_state_balance ⟨[]⟩ c4Node ⟨[], []⟩ c4Out c4_eval⟩

/-! ## The external object store (lopdf::Document, as used by
src/types/pdf_document.rs) -/

/-- The object side of a `lopdf::Document`: an id→object map (kept as an
append-ordered association list) plus the id allocator, a monotonically
increasing counter (`max_id`). -/
structure Store where
  objects : List (Nat × Obj)
  maxId : Nat
deriving Repr

/-- `doc.add_object(obj)`: allocate `max_id + 1` and bind it. -/
def Store.addObject (s : Store) (o : Obj) : Nat × Store :=
  (s.maxId + 1, ⟨s.objects ++ [(s.maxId + 1, o)], s.maxId + 1⟩)

/-- `doc.new_object_id()`: allocate `max_id + 1` without binding it. -/
def Store.newObjectId (s : Store) : Nat × Store :=
  (s.maxId + 1, { s with maxId := s.maxId + 1 })

/-- `doc.objects.insert(id, obj)` for an id that was allocated in
advance (the forward-referenced page-tree id). -/
def Store.insertAt (s : Store) (id : Nat) (o : Obj) : Store :=
  ⟨s.objects ++ [(id, o)], s.maxId⟩

/-- Object lookup by id. -/
def Store.lookup (s : Store) (id : Nat) : Option Obj :=
  (s.objects.find? (fun p => p.1 = id)).map (fun p => p.2)

/-- Every bound id has been allocated. -/
def Store.Bounded (s : Store) : Prop := ∀ p ∈ s.objects, p.1 ≤ s.maxId

/-- `s'` is `s` plus later additions. -/
def Store.Extends (s' s : Store) : Prop :=
  (∃ tl, s'.objects = s.objects ++ tl) ∧ s.maxId ≤ s'.maxId

/-- The fresh `lopdf::Document::with_version("1.3")` store. -/
def emptyStore : Store := ⟨[], 0⟩

lemma extends_refl (s : Store) : s.Extends s := ⟨⟨[], by simp⟩, le_refl _⟩

lemma extends_trans {s3 s2 s1 : Store} (h32 : s3.Extends s2)
    (h21 : s2.Extends s1) : s3.Extends s1 := by
  obtain ⟨⟨t2, ht2⟩, hm2⟩ := h32
  obtain ⟨⟨t1, ht1⟩, hm1⟩ := h21
  exact ⟨⟨t1 ++ t2, by rw [ht2, ht1, List.append_assoc]⟩, le_trans hm1 hm2⟩

lemma addObject_extends (s : Store) (o : Obj) :
    (s.addObject o).2.Extends s :=
  ⟨⟨[((s.addObject o).1, o)], rfl⟩, by simp [Store.addObject]⟩

lemma addObject_bounded {s : Store} (h : s.Bounded) (o : Obj) :
    (s.addObject o).2.Bounded := by
  intro p hp
  simp only [Store.addObject, List.mem_append, List.mem_singleton] at hp
  rcases hp with hp | hp
  · exact le_trans (h p hp) (Nat.le_succ _)
  · subst hp
    simp [Store.addObject]

lemma newObjectId_extends (s : Store) : (s.newObjectId).2.Extends s :=
  ⟨⟨[], by simp [Store.newObjectId]⟩, by simp [Store.newObjectId]⟩

lemma newObjectId_bounded {s : Store} (h : s.Bounded) :
    (s.newObjectId).2.Bounded := by
  intro p hp
  simp only [Store.newObjectId] at hp
  exact le_trans (h p hp) (Nat.le_succ _)

lemma insertAt_extends (s : Store) (id : Nat) (o : Obj) :
    (s.insertAt id o).Extends s :=
  ⟨⟨[(id, o)], rfl⟩, le_refl _⟩

lemma insertAt_bounded {s : Store} (h : s.Bounded) {id : Nat}
    (hid : id ≤ s.maxId) (o : Obj) : (s.insertAt id o).Bounded := by
  intro p hp
  simp only [Store.insertAt, List.mem_append, List.mem_singleton] at hp
  rcases hp with hp | hp
  · exact h p hp
  · subst hp
    simpa [Store.insertAt] using hid

lemma lookup_extends {s' s : Store} (h : s'.Extends s) {id : Nat} {x : Obj}
    (hl : s.lookup id = some x) : s'.lookup id = some x := by
  obtain ⟨⟨tl, htl⟩, _⟩ := h
  simp only [Store.lookup] at hl ⊢
  rw [htl, List.find?_append]
  rcases hf : s.objects.find? (fun p => p.1 = id) with _ | v
  · rw [hf] at hl
    simp at hl
  · rw [hf] at hl ⊢
    exact hl

lemma lookup_none_of_bounded {s : Store} (h : s.Bounded) {id : Nat}
    (hid : s.maxId < id) : s.lookup id = none := by
  have hf : s.objects.find? (fun p => p.1 = id) = none := by
    rw [List.find?_eq_none]
    intro p hp
    have := h p hp
    simp only [decide_eq_true_eq]
    omega
  simp [Store.lookup, hf]

lemma addObject_lookup_self {s : Store} (h : s.Bounded) (o : Obj) :
    (s.addObject o).2.lookup (s.addObject o).1 = some o := by
  have hf : s.objects.find? (fun p => p.1 = s.maxId + 1) = none := by
    rw [List.find?_eq_none]
    intro p hp
    have := h p hp
    simp only [decide_eq_true_eq]
    omega
  simp [Store.addObject, Store.lookup, List.find?_append, hf]

lemma addObject_fresh_lookup {s : Store} (o : Obj)
    {id : Nat} (hid : id ≤ s.maxId) :
    (s.addObject o).2.lookup id = s.lookup id := by
  rcases hf : s.objects.find? (fun p => p.1 = id) with _ | v
  · have hne : ¬ (s.maxId + 1 = id) := by omega
    simp [Store.addObject, Store.lookup, List.find?_append, hf, hne]
  · simp [Store.addObject, Store.lookup, List.find?_append, hf]

/-! ## Pages, layers, metadata (the parts of this repository that are
not among the given sources are modelled from the spec) -/

/-- Modelled from the spec (the `PdfLayer` type is not among the given
sources): a layer owns a display name, a content-operator byte buffer,
and a resource table. -/
structure PdfLayer where
  name : String
  content : List Nat
  resources : PDict

/-- Modelled from the spec (the `PdfPage` type is not among the given
sources): a page owns width/height, a position index matching its slot
in the document, and an ordered sequence of layers. -/
structure PdfPage where
  index : Nat
  width : Rat
  height : Rat
  layers : List PdfLayer

/-- Modelled from the spec: `PdfPage::new(w, h, layer_name, page_index)`
creates a page that stores `page_index` as its index and holds one
initial layer named `layer_name`; it returns the page together with the
index of that initial layer. -/
def PdfPage.new (w h : Rat) (layerName : String) (pageIndex : Nat) :
    PdfPage × Nat :=
  ({ index := pageIndex, width := w, height := h,
     layers := [{ name := layerName, content := [], resources := [] }] }, 0)

/-- Union of two resource dictionaries (later entries override). -/
def dictMerge (a b : PDict) : PDict :=
  b.foldl (fun acc kv => dictSet acc kv.1 kv.2) a

/-- Modelled from the spec (the `collect_resources_and_streams` method of
`PdfPage` is not among the given sources): the page resource dictionary
is the union of all its layers' resource tables, and the streams are the
layers' content buffers in layer order.  The OCG references of the page
are accepted as in the source call site. -/
def collect_resources_and_streams (page : PdfPage)
    (_ocgs : List (Nat × Obj)) : PDict × List (List Nat) :=
  (page.layers.foldl (fun acc l => dictMerge acc l.resources) [],
   page.layers.map (fun l => l.content))

/-- A `time::OffsetDateTime` restricted to the fields the info
dictionary formats. -/
structure OffsetDateTime where
  year : Nat
  month : Nat
  day : Nat
  hour : Nat
  minute : Nat
  second : Nat
deriving DecidableEq, Repr

/-- Decimal rendering padded with leading zeros to `width` digits. -/
def padNum (width : Nat) (n : Nat) : String :=
  let s := toString n
  String.mk (List.replicate (width - s.length) '0') ++ s

/-- `to_pdf_time_stamp_metadata` (document_info plugin): `D:` followed
by the padded UTC timestamp. -/
def to_pdf_time_stamp_metadata (date : OffsetDateTime) : String :=
  "D:" ++ padNum 4 date.year ++ padNum 2 date.month ++ padNum 2 date.day ++
    padNum 2 date.hour ++ padNum 2 date.minute ++ padNum 2 date.second ++
    "+00\x2700\x27"

/-- The UTF-16 code units of a string (surrogate pairs for characters
beyond the basic plane), as produced by Rust's `encode_utf16`. -/
def utf16CodeUnits (s : String) : List Nat :=
  s.data.flatMap (fun c =>
    let v := c.toNat
    if v < 0x10000 then [v]
    else [0xD800 + (v - 0x10000) / 0x400, 0xDC00 + (v - 0x10000) % 0x400])

/-- Big-endian bytes of one UTF-16 code unit (`u16::to_be_bytes`). -/
def beBytes16 (u : Nat) : List Nat := [u / 256 % 256, u % 256]

/-- The byte-order mark followed by the UTF-16BE encoding, as built for
the `Title` and `Keywords` entries of the info dictionary. -/
def utf16beWithBom (s : String) : List Nat :=
  (0xFEFF :: utf16CodeUnits s).flatMap beBytes16

/-- `DocumentInfo::into_obj` (document_info plugin): the `Info`
dictionary of the trailer. -/
def document_info_into_obj (document_title : String) (trapping : Bool)
    (gts_pdfx_version : String)
    (creation_date modification_date : OffsetDateTime)
    (keywords : Option String) : Obj :=
  Obj.Dict
    ([("Trapped", Obj.Name (if trapping then "True" else "False")),
      ("CreationDate",
        Obj.Str (strBytes (to_pdf_time_stamp_metadata creation_date))
          StrFmt.Literal),
      ("ModDate",
        Obj.Str (strBytes (to_pdf_time_stamp_metadata modification_date))
          StrFmt.Literal),
      ("GTS_PDFXVersion",
        Obj.Str (strBytes gts_pdfx_version) StrFmt.Literal),
      ("Title", Obj.Str (utf16beWithBom document_title) StrFmt.Hexadecimal)]
     ++ (match keywords with
         | some k => [("Keywords",
             Obj.Str (utf16beWithBom k) StrFmt.Hexadecimal)]
         | none => []))

/-- Modelled from the spec (the `PdfMetadata` type is not among the
given sources): the metadata carried by a document — the arguments of
the info dictionary plus the optional XML-metadata stream and the
optional ICC-profile stream. -/
structure PdfMetadata where
  documentTitle : String
  trapping : Bool
  conformanceIdentifier : String
  creationDate : OffsetDateTime
  modificationDate : OffsetDateTime
  keywords : Option String
  xmpMetadata : Option (PDict × List Nat)
  iccProfile : Option (PDict × List Nat)

/-- Modelled from the spec: `metadata.into_obj()` encodes the metadata
as (optional XML-metadata stream, info dictionary, optional ICC
profile). -/
def PdfMetadata.into_obj (m : PdfMetadata) :
    Option Obj × Obj × Option (PDict × List Nat) :=
  (m.xmpMetadata.map (fun p => Obj.Stream p.1 p.2),
   document_info_into_obj m.documentTitle m.trapping m.conformanceIdentifier
     m.creationDate m.modificationDate m.keywords,
   m.iccProfile)

/-- `PdfDocument` (src/types/pdf_document.rs): pages, fonts (modelled as
the entries of the font resource dictionary its `FontList` renders to),
the inner lopdf document, the document/instance identifiers and the
metadata. -/
structure PdfDocument where
  pages : List PdfPage
  fonts : PDict
  innerDoc : Store
  documentId : String
  instanceId : Option String
  metadata : PdfMetadata

/-! ## src/utils.rs : the xorshift generator and the random 32-character
string -/

/-- 64-bit wrap. -/
def wrap64 (x : Nat) : Nat := x % 2 ^ 64

/-- The 64-bit xorshift scramble applied to the fetched seed
(`x ^= x << 21; x ^= x >> 35; x ^= x << 4`), every shift wrapping at 64
bits. -/
def xorshift64 (x : Nat) : Nat :=
  let x1 := wrap64 (x ^^^ wrap64 (x <<< 21))
  let x2 := x1 ^^^ (x1 >>> 35)
  wrap64 (x2 ^^^ wrap64 (x2 <<< 4))

/-- `rand` (src/utils.rs): fetch-and-add 21 on the seed, scramble the
fetched value.  The global atomic seed is modelled by explicit state
passing. -/
def rand (seed : Nat) : Nat × Nat :=
  (xorshift64 seed, wrap64 (seed + 21))

/-- The decimal digits of a number, most significant first — the digits
that `format!("{}", rand())` walks over. -/
def natDigits (n : Nat) : List Nat :=
  if _h : n < 10 then [n]
  else natDigits (n / 10) ++ [n % 10]
decreasing_by
  exact Nat.div_lt_self (by omega) (by omega)

/-- `u8_to_char` (src/utils.rs): shift a digit into the letters
`A`..`J`. -/
def u8_to_char (input : Nat) : Char := Char.ofNat (65 + input)

/-- The loop body of `random_character_string_32`: keep drawing random
numbers and pushing one letter per decimal digit until 32 characters
have accumulated (the inner loop breaks at the cap). -/
def rcsLoop (seed : Nat) (acc : List Char) : List Char × Nat :=
  if acc.length < 32 then
    let r := rand seed
    let digits := (natDigits r.1).map u8_to_char
    rcsLoop r.2 (acc ++ digits.take (32 - acc.length))
  else (acc, seed)
termination_by 32 - acc.length
decreasing_by
  have hlen : (natDigits (rand seed).1).length ≥ 1 := by
    unfold natDigits
    split
    · simp
    · simp
  simp only [List.length_append, List.length_take, List.length_map]
  omega

/-- `random_character_string_32` (src/utils.rs), with the global seed
modelled by explicit state passing. -/
def random_character_string_32 (seed : Nat) : String × Nat :=
  let r := rcsLoop seed []
  (String.mk r.1, r.2)

lemma natDigits_ne_nil (n : Nat) : natDigits n ≠ [] := by
  unfold natDigits
  split
  · simp
  · simp

lemma rcsLoop_length (seed : Nat) (acc : List Char)
    (h : acc.length ≤ 32) : (rcsLoop seed acc).1.length = 32 := by
  by_cases hlt : acc.length < 32
  · rw [rcsLoop, if_pos hlt]
    have hne := natDigits_ne_nil (rand seed).1
    have hlen : 1 ≤ ((natDigits (rand seed).1).map u8_to_char).length := by
      simp only [List.length_map]
      cases hd : natDigits (rand seed).1 with
      | nil => exact absurd hd hne
      | cons a tl => simp
    exact rcsLoop_length (rand seed).2 _ (by
      simp only [List.length_append, List.length_take, List.length_map]
      omega)
  · rw [rcsLoop, if_neg hlt]
    simp only []
    omega
termination_by 32 - acc.length
decreasing_by
  simp only [List.length_append, List.length_take, List.length_map]
  have hne := natDigits_ne_nil (rand seed).1
  have : 1 ≤ (natDigits (rand seed).1).length := by
    cases hd : natDigits (rand seed).1 with
    | nil => exact absurd hd hne
    | cons a tl => simp
  omega

/-- The generator always returns exactly 32 characters. -/
lemma random_character_string_32_length (seed : Nat) :
    (random_character_string_32 seed).1.length = 32 := by
  simp only [random_character_string_32, String.length]
  exact rcsLoop_length seed [] (by simp)

/-! ## PdfDocument::new and add_page (claim C9) -/

/-- `PdfDocument::new` (src/types/pdf_document.rs): build the empty
document (with a fresh random document id), create the initial page at
index 0 and push it.  Returns (document, page index 0, layer index);
the impure pieces (the global random seed, the current time used by
`PdfMetadata::new`) are explicit parameters. -/
def PdfDocument.new (documentTitle : String) (w h : Rat)
    (initialLayerName : String) (seed : Nat) (now : OffsetDateTime) :
    PdfDocument × Nat × Nat × Nat :=
  let r := random_character_string_32 seed
  let doc : PdfDocument :=
    { pages := [],
      fonts := [],
      innerDoc := emptyStore,
      documentId := r.1,
      instanceId := none,
      metadata :=
        { documentTitle := documentTitle,
          trapping := false,
          conformanceIdentifier := "PDF/X-3:2002",
          creationDate := now,
          modificationDate := now,
          keywords := none,
          xmpMetadata := none,
          iccProfile := none } }
  let p := PdfPage.new w h initialLayerName 0
  ({ doc with pages := doc.pages ++ [p.1] }, 0, p.2, r.2)

/-- `add_page` (src/types/pdf_document.rs): create a page whose stored
index is the current page count, push it, and return the index of the
last page together with the initial layer index. -/
def add_page (doc : PdfDocument) (x y : Rat) (initialLayerName : String) :
    PdfDocument × Nat × Nat :=
  let p := PdfPage.new x y initialLayerName doc.pages.length
  let doc2 := { doc with pages := doc.pages ++ [p.1] }
  (doc2, doc2.pages.length - 1, p.2)

/-- Every page's stored index equals its position in the page vector. -/
abbrev PagesIndexed (doc : PdfDocument) : Prop :=
  ∀ (i : Nat) (p : PdfPage), doc.pages[i]? = some p → p.index = i

/-- Apply a sequence of `add_page` calls. -/
def applyAddPages (doc : PdfDocument) :
    List (Rat × Rat × String) → PdfDocument
  | [] => doc
  | a :: rest => applyAddPages (add_page doc a.1 a.2.1 a.2.2).1 rest

lemma pagesIndexed_new (documentTitle : String) (w h : Rat)
    (ln : String) (seed : Nat) (now : OffsetDateTime) :
    PagesIndexed (PdfDocument.new documentTitle w h ln seed now).1 := by
  intro i p hp
  simp only [PdfDocument.new, PdfPage.new, List.nil_append] at hp
  cases i with
  | zero =>
      simp at hp
      rw [← hp]
  | succ j => simp at hp

lemma add_page_index (doc : PdfDocument) (x y : Rat) (ln : String) :
    (add_page doc x y ln).2.1 = doc.pages.length ∧
    ∃ p, (add_page doc x y ln).1.pages[doc.pages.length]? = some p ∧
      p.index = doc.pages.length := by
  refine ⟨by simp [add_page, PdfPage.new],
    ⟨(PdfPage.new x y ln doc.pages.length).1, ?_, rfl⟩⟩
  simp only [add_page]
  rw [List.getElem?_append_right (le_refl _)]
  simp

lemma pagesIndexed_add_page {doc : PdfDocument} (h : PagesIndexed doc)
    (x y : Rat) (ln : String) :
    PagesIndexed (add_page doc x y ln).1 := by
  intro i p hp
  simp only [add_page, PdfPage.new] at hp
  by_cases hi : i < doc.pages.length
  · rw [List.getElem?_append, if_pos hi] at hp
    exact h i p hp
  · rw [List.getElem?_append_right (by omega)] at hp
    rcases hj : i - doc.pages.length with _ | j
    · rw [hj] at hp
      simp at hp
      rw [← hp]
      simp
      omega
    · rw [hj] at hp
      simp at hp

lemma pagesIndexed_applyAddPages {doc : PdfDocument} (h : PagesIndexed doc) :
    ∀ calls, PagesIndexed (applyAddPages doc calls)
  | [] => h
  | a :: rest =>
      pagesIndexed_applyAddPages (pagesIndexed_add_page h a.1 a.2.1 a.2.2)
        rest

/-- C9: after any sequence of `PdfDocument::new` and `add_page` calls,
every page's stored index equals its position in the page vector; `new`
creates the initial page at index 0, and `add_page` stores the current
page count as the new page's index and returns that value as the page
index. -/
theorem C9_page_index_consistency (documentTitle : String) (w h : Rat)
    (ln : String) (seed : Nat) (now : OffsetDateTime)
    (calls : List (Rat × Rat × String)) :
    PagesIndexed (PdfDocument.new documentTitle w h ln seed now).1 ∧
    (PdfDocument.new documentTitle w h ln seed now).2.1 = 0 ∧
    PagesIndexed (applyAddPages
      (PdfDocument.new documentTitle w h ln seed now).1 calls) ∧
    (∀ doc x y l2, (add_page doc x y l2).2.1 = doc.pages.length ∧
      ∃ p, (add_page doc x y l2).1.pages[doc.pages.length]? = some p ∧
        p.index = doc.pages.length) :=
  ⟨pagesIndexed_new documentTitle w h ln seed now,
   rfl,
   pagesIndexed_applyAddPages
     (pagesIndexed_new documentTitle w h ln seed now) calls,
   fun doc x y l2 => add_page_index doc x y l2⟩

/-- Witness for C9 at one concrete document and two added pages. -/
theorem C9_page_index_consistency_witness :
    PagesIndexed (PdfDocument.new "t" 500 500 "L1" 2100
      ⟨2024, 1, 1, 0, 0, 0⟩).1 ∧
    (PdfDocument.new "t" 500 500 "L1" 2100 ⟨2024, 1, 1, 0, 0, 0⟩).2.1 = 0 ∧
    PagesIndexed (applyAddPages
      (PdfDocument.new "t" 500 500 "L1" 2100 ⟨2024, 1, 1, 0, 0, 0⟩).1
      [(200, 200, "L2"), (300, 100, "L3")]) ∧
    (∀ doc x y l2, (add_page doc x y l2).2.1 = doc.pages.length ∧
      ∃ p, (add_page doc x y l2).1.pages[doc.pages.length]? = some p ∧
        p.index = doc.pages.length) :=
  C9_page_index_consistency "t" 500 500 "L1" 2100 ⟨2024, 1, 1, 0, 0, 0⟩
    [(200, 200, "L2"), (300, 100, "L3")]

/-! ## PdfDocumentReference::save (src/types/pdf_document.rs) -/

/-- The OCG dictionary allocated for one (page, layer) pair. -/
def ocgDict (layerName : String) (intentRef usageRef : Nat) : Obj :=
  Obj.Dict [("Type", Obj.Name "OCG"),
            ("Name", Obj.Str (strBytes layerName) StrFmt.Literal),
            ("Intent", Obj.Reference intentRef),
            ("Usage", Obj.Reference usageRef)]

/-- The inner map of the OCG construction: allocate one OCG dictionary
per enumerated layer name. -/
def buildOcgLayers (intentRef usageRef : Nat) :
    List (Nat × String) → Store → List (Nat × Obj) × Store
  | [], s => ([], s)
  | (li, nm) :: rest, s =>
      let r := s.addObject (ocgDict nm intentRef usageRef)
      let tl := buildOcgLayers intentRef usageRef rest r.2
      ((li, Obj.Reference r.1) :: tl.1, tl.2)

/-- The outer map of the OCG construction: page-major over
`page_layer_names`. -/
def buildOcgList (intentRef usageRef : Nat) :
    List (Nat × List String) → Store → List (Nat × List (Nat × Obj)) × Store
  | [], s => ([], s)
  | (pi, names) :: rest, s =>
      let ls := buildOcgLayers intentRef usageRef names.enum s
      let tl := buildOcgList intentRef usageRef rest ls.2
      ((pi, ls.1) :: tl.1, tl.2)

/-- The `Page` dictionary skeleton built at the top of the page loop. -/
def pageDictBase (page : PdfPage) (pagesId : Nat) : PDict :=
  [("Type", Obj.Name "Page"),
   ("Rotate", Obj.Integer 0),
   ("MediaBox", Obj.Arr [Obj.Integer 0, Obj.Integer 0,
      Obj.Real page.width, Obj.Real page.height]),
   ("TrimBox", Obj.Arr [Obj.Integer 0, Obj.Integer 0,
      Obj.Real page.width, Obj.Real page.height]),
   ("CropBox", Obj.Arr [Obj.Integer 0, Obj.Integer 0,
      Obj.Real page.width, Obj.Real page.height]),
   ("Parent", Obj.Reference pagesId)]

/-- One iteration of the page loop of `save`: build the page dictionary,
find the page's OCG entry by index (`.unwrap()` panics when the index is
not found — `none`), collect resources and layer streams, register the
shared font dictionary, emit Resources only when non-empty, merge the
layer streams into one content stream, and add the page object. -/
def savePages (ocgList : List (Nat × List (Nat × Obj))) (pagesId : Nat)
    (fontDictId : Option Nat) :
    List (Nat × PdfPage) → Store → Option (List Obj × Store)
  | [], s => some ([], s)
  | (idx, page) :: rest, s =>
      let p := pageDictBase page pagesId
      match ocgList.find? (fun e => e.1 = idx) with
      | none => none
      | some layersTemp =>
        let rs := collect_resources_and_streams page layersTemp.2
        let resourcesPage := match fontDictId with
          | some f => dictSet rs.1 "Font" (Obj.Reference f)
          | none => rs.1
        let pr : PDict × Store :=
          if resourcesPage.length > 0 then
            let ra := s.addObject (Obj.Dict resourcesPage)
            (dictSet p "Resources" (Obj.Reference ra.1), ra.2)
          else (p, s)
        let merged : List Nat := rs.2.flatten
        let ca := pr.2.addObject (Obj.Stream [] merged)
        let p2 := dictSet pr.1 "Contents" (Obj.Reference ca.1)
        let pa := ca.2.addObject (Obj.Dict p2)
        match savePages ocgList pagesId fontDictId rest pa.2 with
        | none => none
        | some tl => some (Obj.Reference pa.1 :: tl.1, tl.2)

/-- The result of `save`: the final object store, the trailer
dictionary, and the values of the locals a reader of the source would
trace (page-tree id, catalog id, page object ids, the flattened OCG
list). -/
structure SaveOut where
  store : Store
  trailer : PDict
  pagesId : Nat
  catalogId : Nat
  pageIds : List Obj
  flatOcgs : List Obj

/-- The optional XML-metadata stream: add it when present, keep its id. -/
def addOptStream (s : Store) (o : Option Obj) : Option Nat × Store :=
  match o with
  | some md => (some (s.addObject md).1, (s.addObject md).2)
  | none => (none, s)

/-- The optional ICC-profile step of `save`: add the profile stream, put
the output intents (holding its reference) into the catalog. -/
def applyIcc (catalog output_intents : PDict) (s : Store)
    (icc : Option (PDict × List Nat)) : PDict × Store :=
  match icc with
  | some profile =>
      let a := s.addObject (Obj.Stream profile.1 profile.2)
      (dictSet catalog "OutputIntents" (Obj.Arr [Obj.Dict
        (dictSet output_intents "DestinationOutputProfile"
          (Obj.Reference a.1))]), a.2)
  | none => (catalog, s)

/-- Reference the XML metadata from the catalog when it exists. -/
def applyXmpId (catalog : PDict) (xid : Option Nat) : PDict :=
  match xid with
  | some mid => dictSet catalog "Metadata" (Obj.Reference mid)
  | none => catalog

/-- The shared font dictionary step of `save`: add the rendered font
dictionary once when it is non-empty. -/
def addFontsDict (s : Store) (fonts : PDict) : Option Nat × Store :=
  if fonts.length > 0 then
    (some (s.addObject (Obj.Dict fonts)).1, (s.addObject (Obj.Dict fonts)).2)
  else (none, s)

/-- The ICC output-condition description string of `save`. -/
def iccProfileDescr : String :=
  "Commercial and special offset print acccording to ISO 12647-2:2004 / " ++
  "Amd 1, paper type 1 or 2 (matte or gloss-coated offset paper, " ++
  "115 g/m2), screen ruling 60/cm"

/-- The steps of `save` (src/types/pdf_document.rs) that precede the
page loop: page-tree id allocation, metadata objects, catalog assembly,
the OCG registry and the shared font dictionary. -/
structure SaveCtx where
  pagesId : Nat
  documentInfoId : Nat
  catalog : PDict
  pages : PDict
  ocgList : List (Nat × List (Nat × Obj))
  flatOcgs : List Obj
  fontDictId : Option Nat
  store : Store

/-- The pre-page-loop half of `save`, in source order. -/
def saveCtx (doc : PdfDocument) : SaveCtx :=
  let s := doc.innerDoc
  let ri := s.newObjectId
  let pages_id := ri.1
  let s := ri.2
  let m := doc.metadata.into_obj
  let rx := addOptStream s m.1
  let xmp_metadata_id := rx.1
  let s := rx.2
  let rd := s.addObject m.2.1
  let document_info_id := rd.1
  let s := rd.2
  let output_intents : PDict :=
    [("S", Obj.Name "GTS_PDFX"),
     ("OutputCondition", Obj.Str (strBytes iccProfileDescr) StrFmt.Literal),
     ("Type", Obj.Name "OutputIntent"),
     ("OutputConditionIdentifier",
        Obj.Str (strBytes "FOGRA39") StrFmt.Literal),
     ("RegistryName",
        Obj.Str (strBytes "http://www.color.org") StrFmt.Literal),
     ("Info", Obj.Str
        (strBytes "Coated FOGRA39 (ISO 12647-2:2004)") StrFmt.Literal)]
  let catalog : PDict :=
    [("Type", Obj.Name "Catalog"),
     ("PageLayout", Obj.Name "OneColumn"),
     ("PageMode", Obj.Name "Use0"),
     ("Pages", Obj.Reference pages_id)]
  let rc := applyIcc catalog output_intents s m.2.2
  let catalog := rc.1
  let s := rc.2
  let catalog := applyXmpId catalog xmp_metadata_id
  let pages : PDict :=
    [("Type", Obj.Name "Pages"),
     ("Count", Obj.Integer (doc.pages.length : Int))]
  let page_layer_names : List (Nat × List String) :=
    doc.pages.map (fun page =>
      (page.index, page.layers.map (fun l => l.name)))
  let usage_ocg_dict : PDict :=
    [("Type", Obj.Name "OCG"),
     ("CreatorInfo", Obj.Dict
       [("Creator", Obj.Str (strBytes "Adobe Illustrator 14.0")
          StrFmt.Literal),
        ("Subtype", Obj.Name "Artwork")])]
  let ru := s.addObject (Obj.Dict usage_ocg_dict)
  let usage_ocg_dict_ref := ru.1
  let s := ru.2
  let ra := s.addObject (Obj.Arr [Obj.Name "View", Obj.Name "Design"])
  let intent_arr_ref := ra.1
  let s := ra.2
  let ro := buildOcgList intent_arr_ref usage_ocg_dict_ref page_layer_names s
  let ocg_list := ro.1
  let s := ro.2
  let flattened_ocg_list : List Obj :=
    (ocg_list.map (fun pl => pl.2.map (fun e => e.2))).flatten
  let catalog := dictSet catalog "OCProperties" (Obj.Dict
    [("OCGs", Obj.Arr flattened_ocg_list),
     ("D", Obj.Dict
       [("Order", Obj.Arr flattened_ocg_list),
        ("RBGroups", Obj.Arr []),
        ("ON", Obj.Arr flattened_ocg_list)])])
  let rf := addFontsDict s doc.fonts
  { pagesId := pages_id,
    documentInfoId := document_info_id,
    catalog := catalog,
    pages := pages,
    ocgList := ocg_list,
    flatOcgs := flattened_ocg_list,
    fontDictId := rf.1,
    store := rf.2 }

/-- `save` (src/types/pdf_document.rs), with the global random seed as
an explicit parameter and the final binary serialization (out of scope)
omitted.  `none` models the `.unwrap()` panic in the page loop. -/
def PdfDocument.save (doc : PdfDocument) (seed : Nat) : Option SaveOut :=
  let c := saveCtx doc
  match savePages c.ocgList c.pagesId c.fontDictId doc.pages.enum c.store with
  | none => none
  | some rp =>
      let pages := dictSet c.pages "Kids" (Obj.Arr rp.1)
      let s := rp.2.insertAt c.pagesId (Obj.Dict pages)
      let rcat := s.addObject (Obj.Dict c.catalog)
      let instance_id : String := match doc.instanceId with
        | some i => i
        | none => (random_character_string_32 seed).1
      let trailer : PDict :=
        [("Root", Obj.Reference rcat.1),
         ("Info", Obj.Reference c.documentInfoId),
         ("ID", Obj.Arr
           [Obj.Str (strBytes doc.documentId) StrFmt.Literal,
            Obj.Str (strBytes instance_id) StrFmt.Literal])]
      some ⟨rcat.2, trailer, c.pagesId, rcat.1, rp.1, c.flatOcgs⟩

/-! ## Dictionary small theory (for the save specifications) -/

lemma dictGet_dictSet_self (d : PDict) (k : String) (v : Obj) :
    dictGet (dictSet d k v) k = some v := by
  unfold dictSet
  by_cases h : d.any (fun kv => kv.1 = k)
  · rw [if_pos h]
    unfold dictGet
    rw [List.find?_map]
    have hp : (fun kv : String × Obj => decide (kv.1 = k)) ∘
        (fun kv : String × Obj => if kv.1 = k then (k, v) else kv) =
        (fun kv : String × Obj => decide (kv.1 = k)) := by
      funext kv
      by_cases hkv : kv.1 = k <;> simp [hkv]
    rw [hp]
    rcases hf : d.find? (fun kv => kv.1 = k) with _ | e2
    · exfalso
      obtain ⟨e, he, hek⟩ := List.any_eq_true.mp h
      have hno := List.find?_eq_none.mp hf e he
      exact hno (by simpa using hek)
    · rw [hf]
      simp only [Option.map_some']
      have hk2 := List.find?_some hf
      simp only [decide_eq_true_eq] at hk2
      rw [if_pos hk2]
  · rw [if_neg h]
    unfold dictGet
    rw [List.find?_append]
    have hf : d.find? (fun kv => kv.1 = k) = none := by
      rw [List.find?_eq_none]
      intro e he
      simp only [List.any_eq_true] at h
      push_neg at h
      have := h e he
      simpa using this
    rw [hf]
    simp

lemma dictGet_dictSet_ne (d : PDict) (k : String) (v : Obj) (k2 : String)
    (h : ¬ (k2 = k)) : dictGet (dictSet d k v) k2 = dictGet d k2 := by
  unfold dictSet
  by_cases ha : d.any (fun kv => kv.1 = k)
  · rw [if_pos ha]
    unfold dictGet
    rw [List.find?_map]
    have hp : (fun kv : String × Obj => decide (kv.1 = k2)) ∘
        (fun kv : String × Obj => if kv.1 = k then (k, v) else kv) =
        (fun kv : String × Obj => decide (kv.1 = k2)) := by
      funext kv
      by_cases hkv : kv.1 = k <;> simp [hkv]
    rw [hp]
    rcases hf : d.find? (fun kv => kv.1 = k2) with _ | e2
    · rw [hf]
      simp
    · rw [hf]
      simp only [Option.map_some']
      have hk2 := List.find?_some hf
      simp only [decide_eq_true_eq] at hk2
      rw [if_neg (by rw [hk2]; exact h)]
  · rw [if_neg ha]
    unfold dictGet
    rw [List.find?_append]
    rcases hf : d.find? (fun kv => kv.1 = k2) with _ | e2
    · rw [hf]
      have h2 : ¬ (k = k2) := fun hh => h hh.symm
      simp [h2]
    · rw [hf]
      simp

lemma dictGet_cons_ne {e : String × Obj} {tl : PDict} {k : String}
    (h : ¬ (e.1 = k)) : dictGet (e :: tl) k = dictGet tl k := by
  unfold dictGet
  rw [List.find?_cons_of_neg _ (by simpa using h)]

lemma dictGet_dictMerge_none {a b : PDict} {k : String}
    (ha : dictGet a k = none) (hb : dictGet b k = none) :
    dictGet (dictMerge a b) k = none := by
  induction b generalizing a with
  | nil => exact ha
  | cons e tl ih =>
      have hek : ¬ (e.1 = k) := by
        intro hk
        have heq : dictGet (e :: tl) k = some e.2 := by
          unfold dictGet
          rw [List.find?_cons_of_pos _ (by simpa using hk)]
          rfl
        rw [heq] at hb
        cases hb
      have hb2 : dictGet tl k = none := by
        rw [← dictGet_cons_ne hek]
        exact hb
      unfold dictMerge at ih ⊢
      simp only [List.foldl_cons]
      exact ih (a := dictSet a e.1 e.2)
        (by rw [dictGet_dictSet_ne _ _ _ _ (fun hh => hek hh.symm)]
            exact ha) hb2

/-- A folded union of none-valued tables stays none at `k`. -/
lemma dictGet_foldl_merge_none {k : String} (ls : List PdfLayer)
    (h : ∀ l ∈ ls, dictGet l.resources k = none) {acc : PDict}
    (hacc : dictGet acc k = none) :
    dictGet (ls.foldl (fun acc l => dictMerge acc l.resources) acc) k =
      none := by
  induction ls generalizing acc with
  | nil => exact hacc
  | cons l tl ih =>
      simp only [List.foldl_cons]
      exact ih (fun x hx => h x (List.mem_cons_of_mem _ hx))
        (dictGet_dictMerge_none hacc (h l (List.mem_cons_self _ _)))

/-- Is an object a `Type /Page` dictionary? -/
def isPageObj (o : Obj) : Bool :=
  match o with
  | Obj.Dict d =>
      match dictGet d "Type" with
      | some (Obj.Name s) => s == "Page"
      | _ => false
  | _ => false

/-! ## Specifications of the OCG construction -/

lemma isPageObj_ocgDict (nm : String) (iR uR : Nat) :
    isPageObj (ocgDict nm iR uR) = false := rfl

lemma buildOcgLayers_spec (iR uR : Nat) :
    ∀ (names : List (Nat × String)) (s : Store), s.Bounded →
    ((buildOcgLayers iR uR names s).2).Extends s ∧
    ((buildOcgLayers iR uR names s).2).Bounded ∧
    (∃ flatIds : List Nat,
      (buildOcgLayers iR uR names s).1.map (fun e => e.2) =
        flatIds.map Obj.Reference ∧
      List.Forall₂ (fun oid nm =>
        ((buildOcgLayers iR uR names s).2).lookup oid =
          some (ocgDict nm iR uR)) flatIds (names.map (fun e => e.2))) ∧
    (∃ tl, ((buildOcgLayers iR uR names s).2).objects = s.objects ++ tl ∧
      (∀ p ∈ tl, s.maxId < p.1) ∧
      ∀ p ∈ tl, isPageObj p.2 = false)
  | [], s, hb => by
      refine ⟨extends_refl s, hb, ⟨[], by simp [buildOcgLayers], ?_⟩,
        ⟨[], by simp [buildOcgLayers], by simp, by simp⟩⟩
      simp [buildOcgLayers]
  | (li, nm) :: rest, s, hb => by
      have hb1 := addObject_bounded hb (ocgDict nm iR uR)
      obtain ⟨hext, hbnd, ⟨fl, hfl, hall⟩, ⟨tl, htl, htlb, htlf⟩⟩ :=
        buildOcgLayers_spec iR uR rest (s.addObject (ocgDict nm iR uR)).2 hb1
      refine ⟨extends_trans hext (addObject_extends s _), hbnd,
        ⟨(s.addObject (ocgDict nm iR uR)).1 :: fl, ?_, ?_⟩,
        ⟨((s.addObject (ocgDict nm iR uR)).1, ocgDict nm iR uR) :: tl,
          ?_, ?_, ?_⟩⟩
      · simp only [buildOcgLayers, List.map_cons, hfl]
      · simp only [buildOcgLayers, List.map_cons]
        exact List.Forall₂.cons
          (lookup_extends hext (addObject_lookup_self hb _)) hall
      · simp only [buildOcgLayers]
        rw [htl]
        simp [Store.addObject]
      · intro p hp
        rcases List.mem_cons.mp hp with hp | hp
        · rw [hp]
          simp [Store.addObject]
        · have := htlb p hp
          simp [Store.addObject] at this
          omega
      · intro p hp
        rcases List.mem_cons.mp hp with hp | hp
        · rw [hp]
          exact isPageObj_ocgDict nm iR uR
        · exact htlf p hp

lemma buildOcgList_spec (iR uR : Nat) :
    ∀ (pln : List (Nat × List String)) (s : Store), s.Bounded →
    ((buildOcgList iR uR pln s).2).Extends s ∧
    ((buildOcgList iR uR pln s).2).Bounded ∧
    (buildOcgList iR uR pln s).1.map (fun e => e.1) =
      pln.map (fun e => e.1) ∧
    (∃ flatIds : List Nat,
      ((buildOcgList iR uR pln s).1.map
        (fun pl => pl.2.map (fun e => e.2))).flatten =
          flatIds.map Obj.Reference ∧
      List.Forall₂ (fun oid nm =>
        ((buildOcgList iR uR pln s).2).lookup oid = some (ocgDict nm iR uR))
        flatIds (pln.map (fun e => e.2)).flatten) ∧
    (∃ tl, ((buildOcgList iR uR pln s).2).objects = s.objects ++ tl ∧
      (∀ p ∈ tl, s.maxId < p.1) ∧
      ∀ p ∈ tl, isPageObj p.2 = false)
  | [], s, hb => by
      refine ⟨extends_refl s, hb, by simp [buildOcgList],
        ⟨[], by simp [buildOcgList], by simp [buildOcgList]⟩,
        ⟨[], by simp [buildOcgList], by simp, by simp⟩⟩
  | (pi, names) :: rest, s, hb => by
      obtain ⟨hext1, hbnd1, ⟨fl1, hfl1, hall1⟩, ⟨tl1, htl1, htlb1, htlf1⟩⟩ :=
        buildOcgLayers_spec iR uR names.enum s hb
      obtain ⟨hext2, hbnd2, hkeys, ⟨fl2, hfl2, hall2⟩,
          ⟨tl2, htl2, htlb2, htlf2⟩⟩ :=
        buildOcgList_spec iR uR rest
          (buildOcgLayers iR uR names.enum s).2 hbnd1
      refine ⟨extends_trans hext2 hext1, hbnd2, ?_, ?_, ?_⟩
      · simp only [buildOcgList, List.map_cons, hkeys]
      · refine ⟨fl1 ++ fl2, ?_, ?_⟩
        · simp only [buildOcgList, List.map_cons, List.flatten_cons,
            List.map_append, hfl2]
          rw [hfl1]
        · simp only [buildOcgList, List.map_cons, List.flatten_cons]
          have hnames : names.enum.map (fun e => e.2) = names :=
            List.enum_map_snd names
          rw [hnames] at hall1
          exact List.rel_append
            (List.Forall₂.imp
              (fun a b hab => lookup_extends hext2 hab) hall1) hall2
      · refine ⟨tl1 ++ tl2, ?_, ?_, ?_⟩
        · simp only [buildOcgList]
          rw [htl2, htl1, List.append_assoc]
        · intro p hp
          rcases List.mem_append.mp hp with hp | hp
          · exact htlb1 p hp
          · have h2 := htlb2 p hp
            have h3 := hext1.2
            omega
        · intro p hp
          rcases List.mem_append.mp hp with hp | hp
          · exact htlf1 p hp
          · exact htlf2 p hp

/-! ## Specification of the page loop -/

/-- The resource dictionary computed for one page: the union of its
layers' tables, plus the shared font dictionary reference when one
exists. -/
def pageResources (fdid : Option Nat) (page : PdfPage) : PDict :=
  match fdid with
  | some f => dictSet (collect_resources_and_streams page []).1 "Font"
      (Obj.Reference f)
  | none => (collect_resources_and_streams page []).1

lemma addObject_fst (s : Store) (o : Obj) :
    (s.addObject o).1 = s.maxId + 1 := rfl

lemma addObject_snd_maxId (s : Store) (o : Obj) :
    (s.addObject o).2.maxId = s.maxId + 1 := rfl

/-- One unfolding step of the page loop once the OCG entry is found. -/
lemma savePages_cons_eq (ocgList : List (Nat × List (Nat × Obj)))
    (pagesId : Nat) (fdid : Option Nat) (idx : Nat) (page : PdfPage)
    (rest : List (Nat × PdfPage)) (s : Store) (e : Nat × List (Nat × Obj))
    (he : ocgList.find? (fun x => x.1 = idx) = some e) :
    savePages ocgList pagesId fdid ((idx, page) :: rest) s =
      (let p := pageDictBase page pagesId
       let resources := pageResources fdid page
       let pr : PDict × Store :=
         if 0 < resources.length then
           (dictSet p "Resources"
             (Obj.Reference (s.addObject (Obj.Dict resources)).1),
            (s.addObject (Obj.Dict resources)).2)
         else (p, s)
       let ca := pr.2.addObject (Obj.Stream []
         ((collect_resources_and_streams page e.2).2.flatten))
       let p2 := dictSet pr.1 "Contents" (Obj.Reference ca.1)
       let pa := ca.2.addObject (Obj.Dict p2)
       match savePages ocgList pagesId fdid rest pa.2 with
       | none => none
       | some tl => some (Obj.Reference pa.1 :: tl.1, tl.2)) := by
  simp only [savePages, he]
  cases fdid <;> rfl

lemma savePages_spec (ocgList : List (Nat × List (Nat × Obj)))
    (pagesId : Nat) (fdid : Option Nat) :
    ∀ (pages : List (Nat × PdfPage)) (s : Store), s.Bounded →
    (∀ pr ∈ pages, (ocgList.find? (fun x => x.1 = pr.1)).isSome = true) →
    ∃ ids s2, savePages ocgList pagesId fdid pages s = some (ids, s2) ∧
      s2.Extends s ∧ s2.Bounded ∧
      ids.length = pages.length ∧
      (∀ (k pid : Nat), ids[k]? = some (Obj.Reference pid) →
        s.maxId < pid ∧ pid ≤ s2.maxId) ∧
      (∀ (k : Nat) (pr : Nat × PdfPage), pages[k]? = some pr →
        ∃ pid pd, ids[k]? = some (Obj.Reference pid) ∧
        s2.lookup pid = some (Obj.Dict pd) ∧
        dictGet pd "Type" = some (Obj.Name "Page") ∧
        (if 0 < (pageResources fdid pr.2).length then
          ∃ rid, dictGet pd "Resources" = some (Obj.Reference rid) ∧
            s2.lookup rid = some (Obj.Dict (pageResources fdid pr.2))
         else dictGet pd "Resources" = none)) ∧
      (∀ (k1 k2 pid1 pid2 : Nat), ids[k1]? = some (Obj.Reference pid1) →
        ids[k2]? = some (Obj.Reference pid2) → pid1 = pid2 → k1 = k2) ∧
      (∃ tl, s2.objects = s.objects ++ tl ∧
        (∀ p ∈ tl, s.maxId < p.1) ∧
        ((∀ pr ∈ pages, dictGet (pageResources fdid pr.2) "Type" = none) →
          tl.countP (fun q => isPageObj q.2) = pages.length))
  | [], s, hb, _ => by
      refine ⟨[], s, rfl, extends_refl s, hb, rfl, ?_, ?_, ?_,
        ⟨[], by simp, by simp, by simp⟩⟩
      · intro k pid hk
        exact Option.noConfusion hk
      · intro k pr hk
        exact Option.noConfusion hk
      · intro k1 k2 pid1 pid2 h1 h2 _
        exact Option.noConfusion h1
  | (idx, page) :: rest, s, hb, hfind => by
      have hfh := hfind (idx, page) (List.mem_cons_self _ _)
      obtain ⟨e, he⟩ := Option.isSome_iff_exists.mp hfh
      rw [savePages_cons_eq ocgList pagesId fdid idx page rest s e he]
      simp only []
      by_cases hr : 0 < (pageResources fdid page).length
      · rw [if_pos hr]
        set ra := s.addObject (Obj.Dict (pageResources fdid page)) with hra
        set ca := ra.2.addObject (Obj.Stream []
          ((collect_resources_and_streams page e.2).2.flatten)) with hca
        set p2 := dictSet (dictSet (pageDictBase page pagesId) "Resources"
          (Obj.Reference ra.1)) "Contents" (Obj.Reference ca.1) with hp2
        set pa := ca.2.addObject (Obj.Dict p2) with hpa
        have hbra : ra.2.Bounded := addObject_bounded hb _
        have hbca : ca.2.Bounded := addObject_bounded hbra _
        have hbpa : pa.2.Bounded := addObject_bounded hbca _
        have hmra : ra.2.maxId = s.maxId + 1 := rfl
        have hmca : ca.2.maxId = ra.2.maxId + 1 := rfl
        have hmpa : pa.2.maxId = ca.2.maxId + 1 := rfl
        have hipa : pa.1 = ca.2.maxId + 1 := rfl
        obtain ⟨ids2, s2, heqr, hext, hbnd, hlen, hbounds, hpages, hinj,
          ⟨tl, htl, htlb, hcount⟩⟩ :=
          savePages_spec ocgList pagesId fdid rest pa.2 hbpa
            (fun pr hpr => hfind pr (List.mem_cons_of_mem _ hpr))
        rw [heqr]
        refine ⟨Obj.Reference pa.1 :: ids2, s2, rfl, ?_, hbnd,
          by simp [hlen], ?_, ?_, ?_, ?_⟩
        · exact extends_trans hext (extends_trans (addObject_extends _ _)
            (extends_trans (addObject_extends _ _) (addObject_extends _ _)))
        · intro k pid hk
          cases k with
          | zero =>
              simp only [List.getElem?_cons_zero, Option.some.injEq,
                Obj.Reference.injEq] at hk
              have hm := hext.2
              omega
          | succ j =>
              simp only [List.getElem?_cons_succ] at hk
              have := hbounds j pid hk
              omega
        · intro k pr hk
          cases k with
          | zero =>
              simp only [List.getElem?_cons_zero, Option.some.injEq] at hk
              subst hk
              refine ⟨pa.1, p2, by simp, ?_, ?_, ?_⟩
              · exact lookup_extends hext (addObject_lookup_self hbca _)
              · rw [hp2, dictGet_dictSet_ne _ _ _ _ (by decide),
                  dictGet_dictSet_ne _ _ _ _ (by decide)]
                rfl
              · simp only []
                rw [if_pos hr]
                refine ⟨ra.1, ?_, ?_⟩
                · rw [hp2, dictGet_dictSet_ne _ _ _ _ (by decide)]
                  exact dictGet_dictSet_self _ _ _
                · exact lookup_extends hext (lookup_extends
                    (addObject_extends _ _) (lookup_extends
                      (addObject_extends _ _)
                      (addObject_lookup_self hb _)))
          | succ j =>
              simp only [List.getElem?_cons_succ] at hk
              obtain ⟨pid, pd, h1, h2, h3, h4⟩ := hpages j pr hk
              exact ⟨pid, pd, by simpa using h1, h2, h3, h4⟩
        · intro k1 k2 pid1 pid2 h1 h2 hpp
          cases k1 with
          | zero =>
              cases k2 with
              | zero => rfl
              | succ j2 =>
                  exfalso
                  simp only [List.getElem?_cons_zero, Option.some.injEq,
                    Obj.Reference.injEq] at h1
                  simp only [List.getElem?_cons_succ] at h2
                  have hb2 := hbounds j2 pid2 h2
                  omega
          | succ j1 =>
              cases k2 with
              | zero =>
                  exfalso
                  simp only [List.getElem?_cons_zero, Option.some.injEq,
                    Obj.Reference.injEq] at h2
                  simp only [List.getElem?_cons_succ] at h1
                  have hb1 := hbounds j1 pid1 h1
                  omega
              | succ j2 =>
                  simp only [List.getElem?_cons_succ] at h1 h2
                  have := hinj j1 j2 pid1 pid2 h1 h2 hpp
                  omega
        · refine ⟨(ra.1, Obj.Dict (pageResources fdid page)) ::
            (ca.1, Obj.Stream []
              ((collect_resources_and_streams page e.2).2.flatten)) ::
            (pa.1, Obj.Dict p2) :: tl, ?_, ?_, ?_⟩
          · rw [htl]
            simp [hpa, hca, hra, Store.addObject, List.append_assoc]
          · intro p hp
            have hira : ra.1 = s.maxId + 1 := rfl
            have hica : ca.1 = ra.2.maxId + 1 := rfl
            have hmra2 : ra.2.maxId = s.maxId + 1 := rfl
            rcases List.mem_cons.mp hp with hp | hp
            · rw [hp]
              omega
            rcases List.mem_cons.mp hp with hp | hp
            · rw [hp]
              omega
            rcases List.mem_cons.mp hp with hp | hp
            · rw [hp]
              simp only []
              omega
            · have := htlb p hp
              omega
          · intro hres
            have hresh := hres (idx, page) (List.mem_cons_self _ _)
            have hpd : dictGet p2 "Type" = some (Obj.Name "Page") := by
              rw [hp2, dictGet_dictSet_ne _ _ _ _ (by decide),
                dictGet_dictSet_ne _ _ _ _ (by decide)]
              rfl
            have hc1 : tl.countP (fun q => isPageObj q.2) = rest.length :=
              hcount (fun pr hpr => hres pr (List.mem_cons_of_mem _ hpr))
            have hresh2 : dictGet (pageResources fdid page) "Type" = none :=
              hresh
            have h1 : isPageObj (Obj.Dict (pageResources fdid page)) =
                false := by
              simp [isPageObj, hresh2]
            have h2 : isPageObj (Obj.Stream []
                ((collect_resources_and_streams page e.2).2.flatten)) =
                false := rfl
            have h3 : isPageObj (Obj.Dict p2) = true := by
              simp [isPageObj, hpd]
            simp [List.countP_cons, hc1, h1, h2, h3]
      · rw [if_neg hr]
        set ca := s.addObject (Obj.Stream []
          ((collect_resources_and_streams page e.2).2.flatten)) with hca
        set p2 := dictSet (pageDictBase page pagesId) "Contents"
          (Obj.Reference ca.1) with hp2
        set pa := ca.2.addObject (Obj.Dict p2) with hpa
        have hbca : ca.2.Bounded := addObject_bounded hb _
        have hbpa : pa.2.Bounded := addObject_bounded hbca _
        have hmca : ca.2.maxId = s.maxId + 1 := rfl
        have hmpa : pa.2.maxId = ca.2.maxId + 1 := rfl
        have hipa : pa.1 = ca.2.maxId + 1 := rfl
        obtain ⟨ids2, s2, heqr, hext, hbnd, hlen, hbounds, hpages, hinj,
          ⟨tl, htl, htlb, hcount⟩⟩ :=
          savePages_spec ocgList pagesId fdid rest pa.2 hbpa
            (fun pr hpr => hfind pr (List.mem_cons_of_mem _ hpr))
        rw [heqr]
        refine ⟨Obj.Reference pa.1 :: ids2, s2, rfl, ?_, hbnd,
          by simp [hlen], ?_, ?_, ?_, ?_⟩
        · exact extends_trans hext (extends_trans (addObject_extends _ _)
            (addObject_extends _ _))
        · intro k pid hk
          cases k with
          | zero =>
              simp only [List.getElem?_cons_zero, Option.some.injEq,
                Obj.Reference.injEq] at hk
              have hm := hext.2
              omega
          | succ j =>
              simp only [List.getElem?_cons_succ] at hk
              have := hbounds j pid hk
              omega
        · intro k pr hk
          cases k with
          | zero =>
              simp only [List.getElem?_cons_zero, Option.some.injEq] at hk
              subst hk
              refine ⟨pa.1, p2, by simp, ?_, ?_, ?_⟩
              · exact lookup_extends hext (addObject_lookup_self hbca _)
              · rw [hp2, dictGet_dictSet_ne _ _ _ _ (by decide)]
                rfl
              · simp only []
                rw [if_neg hr, hp2, dictGet_dictSet_ne _ _ _ _ (by decide)]
                rfl
          | succ j =>
              simp only [List.getElem?_cons_succ] at hk
              obtain ⟨pid, pd, h1, h2, h3, h4⟩ := hpages j pr hk
              exact ⟨pid, pd, by simpa using h1, h2, h3, h4⟩
        · intro k1 k2 pid1 pid2 h1 h2 hpp
          cases k1 with
          | zero =>
              cases k2 with
              | zero => rfl
              | succ j2 =>
                  exfalso
                  simp only [List.getElem?_cons_zero, Option.some.injEq,
                    Obj.Reference.injEq] at h1
                  simp only [List.getElem?_cons_succ] at h2
                  have hb2 := hbounds j2 pid2 h2
                  omega
          | succ j1 =>
              cases k2 with
              | zero =>
                  exfalso
                  simp only [List.getElem?_cons_zero, Option.some.injEq,
                    Obj.Reference.injEq] at h2
                  simp only [List.getElem?_cons_succ] at h1
                  have hb1 := hbounds j1 pid1 h1
                  omega
              | succ j2 =>
                  simp only [List.getElem?_cons_succ] at h1 h2
                  have := hinj j1 j2 pid1 pid2 h1 h2 hpp
                  omega
        · refine ⟨(ca.1, Obj.Stream []
              ((collect_resources_and_streams page e.2).2.flatten)) ::
            (pa.1, Obj.Dict p2) :: tl, ?_, ?_, ?_⟩
          · rw [htl]
            simp [hpa, hca, Store.addObject, List.append_assoc]
          · intro p hp
            have hica : ca.1 = s.maxId + 1 := rfl
            rcases List.mem_cons.mp hp with hp | hp
            · rw [hp]
              omega
            rcases List.mem_cons.mp hp with hp | hp
            · rw [hp]
              simp only []
              omega
            · have := htlb p hp
              omega
          · intro hres
            have hpd : dictGet p2 "Type" = some (Obj.Name "Page") := by
              rw [hp2, dictGet_dictSet_ne _ _ _ _ (by decide)]
              rfl
            have hc1 : tl.countP (fun q => isPageObj q.2) = rest.length :=
              hcount (fun pr hpr => hres pr (List.mem_cons_of_mem _ hpr))
            have h2 : isPageObj (Obj.Stream []
                ((collect_resources_and_streams page e.2).2.flatten)) =
                false := rfl
            have h3 : isPageObj (Obj.Dict p2) = true := by
              simp [isPageObj, hpd]
            simp [List.countP_cons, hc1, h2, h3]

/-! ## Stage lemmas for the pre-page half of `save` -/

lemma lookup_none_tail {s' s : Store} {tl : List (Nat × Obj)}
    (h1 : s'.objects = s.objects ++ tl) (h2 : ∀ p ∈ tl, s.maxId < p.1)
    {id : Nat} (hnone : s.lookup id = none) (hid : id ≤ s.maxId) :
    s'.lookup id = none := by
  have hf : s.objects.find? (fun p => p.1 = id) = none := by
    rcases hf : s.objects.find? (fun p => p.1 = id) with _ | v
    · exact hf
    · rw [Store.lookup, hf] at hnone
      simp at hnone
  have hf2 : tl.find? (fun p => p.1 = id) = none := by
    rw [List.find?_eq_none]
    intro p hp
    have := h2 p hp
    simp only [decide_eq_true_eq]
    omega
  simp [Store.lookup, h1, List.find?_append, hf, hf2]

lemma insertAt_lookup_self {s : Store} {id : Nat} (h : s.lookup id = none)
    (o : Obj) : (s.insertAt id o).lookup id = some o := by
  have hf : s.objects.find? (fun p => p.1 = id) = none := by
    rcases hf : s.objects.find? (fun p => p.1 = id) with _ | v
    · exact hf
    · rw [Store.lookup, hf] at h
      simp at h
  simp [Store.insertAt, Store.lookup, List.find?_append, hf]

lemma isPageObj_document_info (document_title : String) (trapping : Bool)
    (gts_pdfx_version : String)
    (creation_date modification_date : OffsetDateTime)
    (keywords : Option String) :
    isPageObj (document_info_into_obj document_title trapping
      gts_pdfx_version creation_date modification_date keywords) = false := by
  cases keywords <;> rfl

lemma addOptStream_spec (s : Store) (o : Option Obj) (hb : s.Bounded) :
    (addOptStream s o).2.Bounded ∧ (addOptStream s o).2.Extends s ∧
    ∃ tl, (addOptStream s o).2.objects = s.objects ++ tl ∧
      (∀ p ∈ tl, s.maxId < p.1) ∧
      ((∀ m, o = some m → isPageObj m = false) →
        ∀ p ∈ tl, isPageObj p.2 = false) := by
  cases o with
  | none =>
      exact ⟨hb, extends_refl s, [], by simp [addOptStream], by simp,
        by simp⟩
  | some md =>
      refine ⟨addObject_bounded hb md, addObject_extends s md,
        [(s.maxId + 1, md)], by simp [addOptStream, Store.addObject],
        ?_, ?_⟩
      · intro p hp
        rcases List.mem_singleton.mp hp with rfl
        omega
      · intro hm p hp
        rcases List.mem_singleton.mp hp with rfl
        exact hm md rfl

lemma applyIcc_store_spec (catalog oi : PDict) (s : Store)
    (icc : Option (PDict × List Nat)) (hb : s.Bounded) :
    (applyIcc catalog oi s icc).2.Bounded ∧
    (applyIcc catalog oi s icc).2.Extends s ∧
    ∃ tl, (applyIcc catalog oi s icc).2.objects = s.objects ++ tl ∧
      (∀ p ∈ tl, s.maxId < p.1) ∧ ∀ p ∈ tl, isPageObj p.2 = false := by
  cases icc with
  | none =>
      exact ⟨hb, extends_refl s, [], by simp [applyIcc], by simp, by simp⟩
  | some pr =>
      refine ⟨addObject_bounded hb _, addObject_extends s _,
        [(s.maxId + 1, Obj.Stream pr.1 pr.2)],
        by simp [applyIcc, Store.addObject], ?_, ?_⟩
      · intro p hp
        rcases List.mem_singleton.mp hp with rfl
        omega
      · intro p hp
        rcases List.mem_singleton.mp hp with rfl
        rfl

lemma applyIcc_dictGet (catalog oi : PDict) (s : Store)
    (icc : Option (PDict × List Nat)) {k : String}
    (hk : ¬ (k = "OutputIntents")) :
    dictGet (applyIcc catalog oi s icc).1 k = dictGet catalog k := by
  cases icc with
  | none => rfl
  | some pr => exact dictGet_dictSet_ne _ _ _ _ hk

lemma applyXmpId_dictGet (catalog : PDict) (xid : Option Nat) {k : String}
    (hk : ¬ (k = "Metadata")) :
    dictGet (applyXmpId catalog xid) k = dictGet catalog k := by
  cases xid with
  | none => rfl
  | some mid => exact dictGet_dictSet_ne _ _ _ _ hk

lemma addFontsDict_spec (s : Store) (fonts : PDict) (hb : s.Bounded) :
    (addFontsDict s fonts).2.Bounded ∧ (addFontsDict s fonts).2.Extends s ∧
    (∃ tl, (addFontsDict s fonts).2.objects = s.objects ++ tl ∧
      (∀ p ∈ tl, s.maxId < p.1) ∧
      (dictGet fonts "Type" = none → ∀ p ∈ tl, isPageObj p.2 = false)) ∧
    (0 < fonts.length →
      ∃ fid, (addFontsDict s fonts).1 = some fid ∧
        (addFontsDict s fonts).2.lookup fid = some (Obj.Dict fonts)) ∧
    (fonts.length = 0 → (addFontsDict s fonts).1 = none ∧
      (addFontsDict s fonts).2 = s) := by
  by_cases h : fonts.length > 0
  · have he : addFontsDict s fonts =
        (some (s.addObject (Obj.Dict fonts)).1,
         (s.addObject (Obj.Dict fonts)).2) := by
      simp [addFontsDict, h]
    rw [he]
    refine ⟨addObject_bounded hb _, addObject_extends s _,
      ⟨[(s.maxId + 1, Obj.Dict fonts)], by simp [Store.addObject],
        ?_, ?_⟩, ?_, ?_⟩
    · intro p hp
      rcases List.mem_singleton.mp hp with rfl
      omega
    · intro hty p hp
      rcases List.mem_singleton.mp hp with rfl
      simp [isPageObj, hty]
    · intro _
      exact ⟨(s.addObject (Obj.Dict fonts)).1, rfl,
        addObject_lookup_self hb _⟩
    · intro h0
      omega
  · have he : addFontsDict s fonts = (none, s) := by
      simp [addFontsDict, h]
    rw [he]
    exact ⟨hb, extends_refl s, ⟨[], by simp, by simp, by simp⟩,
      fun h0 => absurd h0 h, fun _ => ⟨rfl, rfl⟩⟩

/-- A store that grew out of another by fresh, non-page additions. -/
def GrowsFrom (s2 s1 : Store) : Prop :=
  s2.Bounded ∧ s1.maxId ≤ s2.maxId ∧
  ∃ tl, s2.objects = s1.objects ++ tl ∧ (∀ p ∈ tl, s1.maxId < p.1) ∧
    ∀ p ∈ tl, isPageObj p.2 = false

lemma growsFrom_trans {s3 s2 s1 : Store} (h32 : GrowsFrom s3 s2)
    (h21 : GrowsFrom s2 s1) : GrowsFrom s3 s1 := by
  obtain ⟨hb3, hm32, tl2, ho2, hbt2, hf2⟩ := h32
  obtain ⟨hb2, hm21, tl1, ho1, hbt1, hf1⟩ := h21
  refine ⟨hb3, le_trans hm21 hm32, tl1 ++ tl2,
    by rw [ho2, ho1, List.append_assoc], ?_, ?_⟩
  · intro p hp
    rcases List.mem_append.mp hp with hp | hp
    · exact hbt1 p hp
    · have := hbt2 p hp
      omega
  · intro p hp
    rcases List.mem_append.mp hp with hp | hp
    · exact hf1 p hp
    · exact hf2 p hp

lemma growsFrom_addObject {s : Store} (hb : s.Bounded) {o : Obj}
    (h : isPageObj o = false) : GrowsFrom (s.addObject o).2 s := by
  refine ⟨addObject_bounded hb o, by simp [Store.addObject],
    [(s.maxId + 1, o)], by simp [Store.addObject], ?_, ?_⟩
  · intro p hp
    rcases List.mem_singleton.mp hp with rfl
    omega
  · intro p hp
    rcases List.mem_singleton.mp hp with rfl
    exact h

/-- Everything `save` establishes before the page loop: the page-tree id
is allocated but unbound, the catalog carries the Catalog type and the
OCProperties built from the flat OCG list, the OCG registry is keyed by
the page indices and holds one OCG dictionary per layer name in
page-major layer-minor order, the font dictionary is shared, and the
store grew only by fresh non-page objects. -/
lemma saveCtx_spec (doc : PdfDocument) (hb : doc.innerDoc.Bounded) :
    (saveCtx doc).store.Bounded ∧
    (saveCtx doc).pagesId = doc.innerDoc.maxId + 1 ∧
    (saveCtx doc).pagesId ≤ (saveCtx doc).store.maxId ∧
    (saveCtx doc).store.lookup (saveCtx doc).pagesId = none ∧
    (saveCtx doc).pages = [("Type", Obj.Name "Pages"),
      ("Count", Obj.Integer (doc.pages.length : Int))] ∧
    dictGet (saveCtx doc).catalog "Type" = some (Obj.Name "Catalog") ∧
    dictGet (saveCtx doc).catalog "OCProperties" = some (Obj.Dict
      [("OCGs", Obj.Arr (saveCtx doc).flatOcgs),
       ("D", Obj.Dict
         [("Order", Obj.Arr (saveCtx doc).flatOcgs),
          ("RBGroups", Obj.Arr []),
          ("ON", Obj.Arr (saveCtx doc).flatOcgs)])]) ∧
    (saveCtx doc).ocgList.map (fun e => e.1) =
      doc.pages.map (fun p => p.index) ∧
    (∃ flatIds iR uR,
      (saveCtx doc).flatOcgs = flatIds.map Obj.Reference ∧
      List.Forall₂ (fun oid nm => (saveCtx doc).store.lookup oid =
          some (ocgDict nm iR uR))
        flatIds (doc.pages.map (fun p =>
          p.layers.map (fun l => l.name))).flatten) ∧
    (∃ tl, (saveCtx doc).store.objects = doc.innerDoc.objects ++ tl ∧
      (∀ p ∈ tl, doc.innerDoc.maxId < p.1) ∧
      (dictGet doc.fonts "Type" = none →
        ∀ p ∈ tl, isPageObj p.2 = false)) ∧
    (0 < doc.fonts.length → ∃ fid, (saveCtx doc).fontDictId = some fid ∧
      (saveCtx doc).store.lookup fid = some (Obj.Dict doc.fonts)) ∧
    (doc.fonts.length = 0 → (saveCtx doc).fontDictId = none) := by
  set s0 := doc.innerDoc with hs0
  set s1 := s0.newObjectId.2 with hs1
  set m := doc.metadata.into_obj with hm
  set rx := addOptStream s1 m.1 with hrx
  set rd := rx.2.addObject m.2.1 with hrd
  set oi : PDict :=
    [("S", Obj.Name "GTS_PDFX"),
     ("OutputCondition", Obj.Str (strBytes iccProfileDescr) StrFmt.Literal),
     ("Type", Obj.Name "OutputIntent"),
     ("OutputConditionIdentifier",
        Obj.Str (strBytes "FOGRA39") StrFmt.Literal),
     ("RegistryName",
        Obj.Str (strBytes "http://www.color.org") StrFmt.Literal),
     ("Info", Obj.Str
        (strBytes "Coated FOGRA39 (ISO 12647-2:2004)") StrFmt.Literal)]
    with hoi
  set cat0 : PDict :=
    [("Type", Obj.Name "Catalog"),
     ("PageLayout", Obj.Name "OneColumn"),
     ("PageMode", Obj.Name "Use0"),
     ("Pages", Obj.Reference (s0.maxId + 1))] with hcat0
  set rc := applyIcc cat0 oi rd.2 m.2.2 with hrc
  set cat1 := applyXmpId rc.1 rx.1 with hcat1
  set usage : PDict :=
    [("Type", Obj.Name "OCG"),
     ("CreatorInfo", Obj.Dict
       [("Creator", Obj.Str (strBytes "Adobe Illustrator 14.0")
          StrFmt.Literal),
        ("Subtype", Obj.Name "Artwork")])] with husage
  set ru := rc.2.addObject (Obj.Dict usage) with hru
  set ra := ru.2.addObject (Obj.Arr [Obj.Name "View", Obj.Name "Design"])
    with hra2
  set pln := doc.pages.map (fun page =>
    (page.index, page.layers.map (fun l => l.name))) with hpln
  set ro := buildOcgList ra.1 ru.1 pln ra.2 with hro
  set flat := (ro.1.map (fun pl => pl.2.map (fun e => e.2))).flatten
    with hflat
  set cat2 := dictSet cat1 "OCProperties" (Obj.Dict
    [("OCGs", Obj.Arr flat),
     ("D", Obj.Dict
       [("Order", Obj.Arr flat),
        ("RBGroups", Obj.Arr []),
        ("ON", Obj.Arr flat)])]) with hcat2
  set rf := addFontsDict ro.2 doc.fonts with hrf
  have hb1 : s1.Bounded := newObjectId_bounded hb
  have hm1 : s1.maxId = s0.maxId + 1 := rfl
  have hs1o : s1.objects = s0.objects := rfl
  obtain ⟨hbx, hexx, tlx, htlxo, htlxb, htlxf⟩ := addOptStream_spec s1 m.1 hb1
  rw [← hrx] at hbx hexx htlxo
  have hxmp : ∀ m0, m.1 = some m0 → isPageObj m0 = false := by
    intro m0 hm0
    have hm1eq : m.1 = doc.metadata.xmpMetadata.map
        (fun p => Obj.Stream p.1 p.2) := rfl
    rw [hm1eq] at hm0
    rcases hx : doc.metadata.xmpMetadata with _ | p
    · rw [hx] at hm0
      exact Option.noConfusion hm0
    · rw [hx] at hm0
      rw [Option.map_some'] at hm0
      rw [← Option.some.inj hm0]
      rfl
  have gx : GrowsFrom rx.2 s1 := ⟨hbx, hexx.2, tlx, htlxo, htlxb, htlxf hxmp⟩
  have hinfo : isPageObj m.2.1 = false := by
    have hmeq : m.2.1 = document_info_into_obj doc.metadata.documentTitle
        doc.metadata.trapping doc.metadata.conformanceIdentifier
        doc.metadata.creationDate doc.metadata.modificationDate
        doc.metadata.keywords := rfl
    rw [hmeq]
    exact isPageObj_document_info _ _ _ _ _ _
  have gd : GrowsFrom rd.2 rx.2 := growsFrom_addObject hbx hinfo
  have hbd : rd.2.Bounded := gd.1
  obtain ⟨hbc, hexc, tlc, htlco, htlcb, htlcf⟩ :=
    applyIcc_store_spec cat0 oi rd.2 m.2.2 hbd
  rw [← hrc] at hbc hexc htlco
  have gc : GrowsFrom rc.2 rd.2 := ⟨hbc, hexc.2, tlc, htlco, htlcb, htlcf⟩
  have husageP : isPageObj (Obj.Dict usage) = false := by
    rw [husage]
    rfl
  have gu : GrowsFrom ru.2 rc.2 := growsFrom_addObject hbc husageP
  have hbu : ru.2.Bounded := gu.1
  have ga : GrowsFrom ra.2 ru.2 := growsFrom_addObject hbu rfl
  have hba : ra.2.Bounded := ga.1
  obtain ⟨hexo, hbo, hkeyso, ⟨fl, hfl, hall⟩, ⟨tlo, htloo, htlob, htlof⟩⟩ :=
    buildOcgList_spec ra.1 ru.1 pln ra.2 hba
  rw [← hro] at hexo hbo hkeyso hfl hall htloo
  rw [← hflat] at hfl
  have go : GrowsFrom ro.2 ra.2 := ⟨hbo, hexo.2, tlo, htloo, htlob, htlof⟩
  have g_all : GrowsFrom ro.2 s1 := growsFrom_trans go (growsFrom_trans ga
    (growsFrom_trans gu (growsFrom_trans gc (growsFrom_trans gd gx))))
  obtain ⟨hbA, hmA, tlA, hoA, hbtA, hftA⟩ := g_all
  obtain ⟨hbf, hexf, ⟨tlf, htlfo, htlfb, htlff⟩, hfsome, hfnone⟩ :=
    addFontsDict_spec ro.2 doc.fonts hbA
  rw [← hrf] at hbf hexf htlfo hfsome hfnone
  have hoS : rf.2.objects = s0.objects ++ (tlA ++ tlf) := by
    rw [htlfo, hoA, hs1o, List.append_assoc]
  have hoS1 : rf.2.objects = s1.objects ++ (tlA ++ tlf) := by
    rw [htlfo, hoA, List.append_assoc]
  have hbndS : ∀ p ∈ tlA ++ tlf, s1.maxId < p.1 := by
    intro p hp
    rcases List.mem_append.mp hp with hp | hp
    · exact hbtA p hp
    · have h6 := htlfb p hp
      omega
  refine ⟨hbf, rfl, ?_, ?_, rfl, ?_, ?_, ?_, ?_, ?_, ?_, ?_⟩
  · have h4 : ro.2.maxId ≤ rf.2.maxId := hexf.2
    show s0.maxId + 1 ≤ rf.2.maxId
    omega
  · show rf.2.lookup (s0.maxId + 1) = none
    have hn1 : s1.lookup (s0.maxId + 1) = none :=
      lookup_none_of_bounded hb (by omega)
    exact lookup_none_tail hoS1 hbndS hn1 (by omega)
  · show dictGet cat2 "Type" = some (Obj.Name "Catalog")
    have e1 : dictGet cat2 "Type" = dictGet cat1 "Type" := by
      rw [hcat2]
      exact dictGet_dictSet_ne _ _ _ _ (by decide)
    have e2 : dictGet cat1 "Type" = dictGet rc.1 "Type" := by
      rw [hcat1]
      exact applyXmpId_dictGet _ _ (by decide)
    have e3 : dictGet rc.1 "Type" = dictGet cat0 "Type" := by
      rw [hrc]
      exact applyIcc_dictGet _ _ _ _ (by decide)
    have e4 : dictGet cat0 "Type" = some (Obj.Name "Catalog") := by
      rw [hcat0]
      rfl
    exact e1.trans (e2.trans (e3.trans e4))
  · show dictGet cat2 "OCProperties" = some (Obj.Dict
      [("OCGs", Obj.Arr flat),
       ("D", Obj.Dict
         [("Order", Obj.Arr flat),
          ("RBGroups", Obj.Arr []),
          ("ON", Obj.Arr flat)])])
    rw [hcat2]
    exact dictGet_dictSet_self _ _ _
  · show ro.1.map (fun e => e.1) = doc.pages.map (fun p => p.index)
    have h9 : pln.map (fun e => e.1) = doc.pages.map (fun p => p.index) := by
      rw [hpln]
      simp [List.map_map]
    exact hkeyso.trans h9
  · refine ⟨fl, ra.1, ru.1, hfl, ?_⟩
    show List.Forall₂ (fun oid nm => rf.2.lookup oid =
        some (ocgDict nm ra.1 ru.1)) fl
      ((doc.pages.map (fun p => p.layers.map (fun l => l.name))).flatten)
    have hnames : pln.map (fun e => e.2) =
        doc.pages.map (fun p => p.layers.map (fun l => l.name)) := by
      rw [hpln]
      simp [List.map_map]
    rw [← hnames]
    exact List.Forall₂.imp (fun a b hab => lookup_extends hexf hab) hall
  · refine ⟨tlA ++ tlf, hoS, ?_, ?_⟩
    · intro p hp
      have := hbndS p hp
      omega
    · intro hfonts p hp
      rcases List.mem_append.mp hp with hp | hp
      · exact hftA p hp
      · exact htlff hfonts p hp
  · intro hlen
    obtain ⟨fid, h1, h2⟩ := hfsome hlen
    exact ⟨fid, h1, h2⟩
  · intro h0
    exact (hfnone h0).1

/-- The master specification of `save`: the writer never panics, and the
exported store satisfies every structural property the specification
describes for the page tree, the catalog, the OCGs, the shared font
dictionary and the trailer. -/
lemma save_spec (doc : PdfDocument) (seed : Nat)
    (hb : doc.innerDoc.Bounded) (hidx : PagesIndexed doc) :
    ∃ out, doc.save seed = some out ∧
    out.pagesId = (saveCtx doc).pagesId ∧
    out.flatOcgs = (saveCtx doc).flatOcgs ∧
    out.trailer = [("Root", Obj.Reference out.catalogId),
      ("Info", Obj.Reference (saveCtx doc).documentInfoId),
      ("ID", Obj.Arr
        [Obj.Str (strBytes doc.documentId) StrFmt.Literal,
         Obj.Str (strBytes (match doc.instanceId with
           | some i => i
           | none => (random_character_string_32 seed).1))
           StrFmt.Literal])] ∧
    out.pageIds.length = doc.pages.length ∧
    (∀ (k : Nat) (pr : Nat × PdfPage), doc.pages.enum[k]? = some pr →
      ∃ pid pd, out.pageIds[k]? = some (Obj.Reference pid) ∧
        out.store.lookup pid = some (Obj.Dict pd) ∧
        dictGet pd "Type" = some (Obj.Name "Page") ∧
        (if 0 < (pageResources (saveCtx doc).fontDictId pr.2).length then
          ∃ rid, dictGet pd "Resources" = some (Obj.Reference rid) ∧
            out.store.lookup rid =
              some (Obj.Dict (pageResources (saveCtx doc).fontDictId pr.2))
         else dictGet pd "Resources" = none)) ∧
    (∀ (k1 k2 pid1 pid2 : Nat),
      out.pageIds[k1]? = some (Obj.Reference pid1) →
      out.pageIds[k2]? = some (Obj.Reference pid2) → pid1 = pid2 →
        k1 = k2) ∧
    (∃ pg, out.store.lookup out.pagesId = some (Obj.Dict pg) ∧
      dictGet pg "Type" = some (Obj.Name "Pages") ∧
      dictGet pg "Count" = some (Obj.Integer (doc.pages.length : Int)) ∧
      dictGet pg "Kids" = some (Obj.Arr out.pageIds)) ∧
    (out.store.lookup out.catalogId =
        some (Obj.Dict (saveCtx doc).catalog) ∧
      dictGet (saveCtx doc).catalog "Type" = some (Obj.Name "Catalog") ∧
      dictGet (saveCtx doc).catalog "OCProperties" = some (Obj.Dict
        [("OCGs", Obj.Arr out.flatOcgs),
         ("D", Obj.Dict
           [("Order", Obj.Arr out.flatOcgs),
            ("RBGroups", Obj.Arr []),
            ("ON", Obj.Arr out.flatOcgs)])])) ∧
    (∃ flatIds iR uR, out.flatOcgs = flatIds.map Obj.Reference ∧
      List.Forall₂ (fun oid nm => out.store.lookup oid =
          some (ocgDict nm iR uR))
        flatIds (doc.pages.map (fun p =>
          p.layers.map (fun l => l.name))).flatten) ∧
    (0 < doc.fonts.length → ∃ fid, (saveCtx doc).fontDictId = some fid ∧
      out.store.lookup fid = some (Obj.Dict doc.fonts)) ∧
    (doc.fonts.length = 0 → (saveCtx doc).fontDictId = none) ∧
    ((∀ p ∈ doc.innerDoc.objects, isPageObj p.2 = false) →
      dictGet doc.fonts "Type" = none →
      (∀ pr ∈ doc.pages.enum,
        dictGet (pageResources (saveCtx doc).fontDictId pr.2) "Type" =
          none) →
      out.store.objects.countP (fun q => isPageObj q.2) =
        doc.pages.length) := by
  obtain ⟨hbC, hpid, hpidle, hlkC, hpagesC, htyC, hocpC, hkeysC,
    ⟨fl, iR, uR, hflC, hallC⟩, ⟨tlC, hoC, hbtC, hfC⟩, hfsomeC, hfnoneC⟩ :=
    saveCtx_spec doc hb
  have hfind : ∀ pr ∈ doc.pages.enum,
      ((saveCtx doc).ocgList.find? (fun x => x.1 = pr.1)).isSome = true := by
    intro pr hpr
    obtain ⟨k, hk⟩ := List.mem_iff_getElem?.mp hpr
    rw [List.getElem?_enum] at hk
    rcases hp : doc.pages[k]? with _ | page
    · rw [hp] at hk
      exact Option.noConfusion hk
    · rw [hp, Option.map_some'] at hk
      have hpr2 := Option.some.inj hk
      have hidxk : page.index = k := hidx k page hp
      rw [List.find?_isSome]
      have hkey : ((saveCtx doc).ocgList.map (fun e => e.1))[k]? =
          some k := by
        rw [hkeysC, List.getElem?_map, hp, Option.map_some', hidxk]
      rw [List.getElem?_map] at hkey
      rcases ho : (saveCtx doc).ocgList[k]? with _ | x
      · rw [ho] at hkey
        exact Option.noConfusion hkey
      · rw [ho, Option.map_some'] at hkey
        have hx1 : x.1 = k := Option.some.inj hkey
        refine ⟨x, List.getElem?_mem ho, ?_⟩
        simp [hx1, ← hpr2]
  obtain ⟨ids, s2, hsp, hext2, hbnd2, hlen, hbounds, hpages, hinj,
    ⟨tlp, htlp, htlpb, hcnt⟩⟩ :=
    savePages_spec (saveCtx doc).ocgList (saveCtx doc).pagesId
      (saveCtx doc).fontDictId doc.pages.enum (saveCtx doc).store hbC hfind
  set pg := dictSet (saveCtx doc).pages "Kids" (Obj.Arr ids) with hpg
  set sIns := s2.insertAt (saveCtx doc).pagesId (Obj.Dict pg) with hsIns
  set rc2 := sIns.addObject (Obj.Dict (saveCtx doc).catalog) with hrc2
  have hleq : (saveCtx doc).pagesId ≤ s2.maxId := le_trans hpidle hext2.2
  have hbody : doc.save seed = some ⟨rc2.2,
      [("Root", Obj.Reference rc2.1),
       ("Info", Obj.Reference (saveCtx doc).documentInfoId),
       ("ID", Obj.Arr
         [Obj.Str (strBytes doc.documentId) StrFmt.Literal,
          Obj.Str (strBytes (match doc.instanceId with
            | some i => i
            | none => (random_character_string_32 seed).1))
            StrFmt.Literal])],
      (saveCtx doc).pagesId, rc2.1, ids, (saveCtx doc).flatOcgs⟩ := by
    simp only [PdfDocument.save, hsp]
  have hextF : rc2.2.Extends s2 :=
    extends_trans (addObject_extends _ _) (insertAt_extends _ _ _)
  have hextAll : rc2.2.Extends (saveCtx doc).store :=
    extends_trans hextF hext2
  have hn2 : s2.lookup (saveCtx doc).pagesId = none :=
    lookup_none_tail htlp htlpb hlkC hpidle
  have hlk1 : sIns.lookup (saveCtx doc).pagesId = some (Obj.Dict pg) :=
    insertAt_lookup_self hn2 _
  have hlk2 : rc2.2.lookup (saveCtx doc).pagesId =
      sIns.lookup (saveCtx doc).pagesId :=
    addObject_fresh_lookup _ hleq
  have hcb : sIns.Bounded := insertAt_bounded hbnd2 hleq _
  refine ⟨⟨rc2.2,
      [("Root", Obj.Reference rc2.1),
       ("Info", Obj.Reference (saveCtx doc).documentInfoId),
       ("ID", Obj.Arr
         [Obj.Str (strBytes doc.documentId) StrFmt.Literal,
          Obj.Str (strBytes (match doc.instanceId with
            | some i => i
            | none => (random_character_string_32 seed).1))
            StrFmt.Literal])],
      (saveCtx doc).pagesId, rc2.1, ids, (saveCtx doc).flatOcgs⟩,
    hbody, rfl, rfl, rfl, hlen.trans (List.enum_length), ?_, hinj, ?_, ?_,
    ?_, ?_, hfnoneC, ?_⟩
  · intro k pr hk
    obtain ⟨pid, pd, h1, h2, h3, h4⟩ := hpages k pr hk
    refine ⟨pid, pd, h1, lookup_extends hextF h2, h3, ?_⟩
    by_cases hrl : 0 < (pageResources (saveCtx doc).fontDictId pr.2).length
    · rw [if_pos hrl] at h4 ⊢
      obtain ⟨rid, hr1, hr2⟩ := h4
      exact ⟨rid, hr1, lookup_extends hextF hr2⟩
    · rw [if_neg hrl] at h4 ⊢
      exact h4
  · refine ⟨pg, hlk2.trans hlk1, ?_, ?_, ?_⟩
    · rw [hpg, dictGet_dictSet_ne _ _ _ _ (by decide), hpagesC]
      rfl
    · rw [hpg, dictGet_dictSet_ne _ _ _ _ (by decide), hpagesC]
      rfl
    · rw [hpg]
      exact dictGet_dictSet_self _ _ _
  · exact ⟨addObject_lookup_self hcb _, htyC, hocpC⟩
  · exact ⟨fl, iR, uR, hflC,
      List.Forall₂.imp (fun a b hab => lookup_extends hextAll hab) hallC⟩
  · intro hlen2
    obtain ⟨fid, h1, h2⟩ := hfsomeC hlen2
    exact ⟨fid, h1, lookup_extends hextAll h2⟩
  · intro hpf hfonts hres
    have h1 : rc2.2.objects = sIns.objects ++
        [(rc2.1, Obj.Dict (saveCtx doc).catalog)] := rfl
    have h2 : sIns.objects = s2.objects ++
        [((saveCtx doc).pagesId, Obj.Dict pg)] := rfl
    have hc0 : doc.innerDoc.objects.countP (fun q => isPageObj q.2) = 0 :=
      List.countP_eq_zero.mpr (fun p hp => by simp [hpf p hp])
    have hcC : tlC.countP (fun q => isPageObj q.2) = 0 :=
      List.countP_eq_zero.mpr (fun p hp => by simp [hfC hfonts p hp])
    have hcp : tlp.countP (fun q => isPageObj q.2) =
        doc.pages.enum.length := hcnt hres
    have hpgty : dictGet pg "Type" = some (Obj.Name "Pages") := by
      rw [hpg, dictGet_dictSet_ne _ _ _ _ (by decide), hpagesC]
      rfl
    have hcpg : isPageObj (Obj.Dict pg) = false := by
      simp [isPageObj, hpgty]
    have hccat : isPageObj (Obj.Dict (saveCtx doc).catalog) = false := by
      simp [isPageObj, htyC]
    show rc2.2.objects.countP (fun q => isPageObj q.2) = doc.pages.length
    rw [h1, h2, htlp, hoC]
    simp [List.countP_append, List.countP_cons, hc0, hcC, hcp, hcpg, hccat,
      List.enum_length]

/-- A page resource dictionary never gains a Type key: the layer union
has none and the shared font entry is keyed Font. -/
lemma pageResources_type_none (fdid : Option Nat) (page : PdfPage)
    (h : ∀ l ∈ page.layers, dictGet l.resources "Type" = none) :
    dictGet (pageResources fdid page) "Type" = none := by
  have hu : dictGet (page.layers.foldl
      (fun acc l => dictMerge acc l.resources) []) "Type" = none :=
    dictGet_foldl_merge_none page.layers h rfl
  cases fdid with
  | none => exact hu
  | some f => exact (dictGet_dictSet_ne _ _ _ _ (by decide)).trans hu

lemma dictSet_length_pos (d : PDict) (k : String) (v : Obj) :
    0 < (dictSet d k v).length := by
  unfold dictSet
  by_cases h : d.any (fun kv => kv.1 = k)
  · rw [if_pos h]
    rw [List.length_map]
    rcases d with _ | ⟨e, tl⟩
    · simp at h
    · simp
  · rw [if_neg h]
    simp

/-- Membership of an enumerated pair projects to the underlying list. -/
lemma enum_forall_lift {α : Type} {l : List α} {P : Nat × α → Prop}
    (h : ∀ (k : Nat) (a : α), l[k]? = some a → P (k, a)) :
    ∀ pr ∈ l.enum, P pr := by
  intro pr hpr
  obtain ⟨k, hk⟩ := List.mem_iff_getElem?.mp hpr
  rw [List.getElem?_enum] at hk
  rcases hp : l[k]? with _ | a
  · rw [hp] at hk
    exact Option.noConfusion hk
  · rw [hp, Option.map_some'] at hk
    rw [← Option.some.inj hk]
    exact h k a hp

/-- C5.  Exporting a document with P pages, page i having L_i layers,
produces exactly P page objects, a page tree whose Count is P and whose
Kids lists the page ids in document order, and one OCG dictionary per
(page, layer) pair collected into a single flat page-major layer-minor
list of length Σ L_i that is used identically as the OCGs set, the
D/Order list and the D/ON list of the catalog OCProperties. -/
theorem C5_page_tree_and_ocg_list (doc : PdfDocument) (seed : Nat)
    (hb : doc.innerDoc.Bounded) (hidx : PagesIndexed doc)
    (hpf : ∀ p ∈ doc.innerDoc.objects, isPageObj p.2 = false)
    (hfonts : dictGet doc.fonts "Type" = none)
    (hres : ∀ page ∈ doc.pages, ∀ l ∈ page.layers,
      dictGet l.resources "Type" = none) :
    ∃ out, doc.save seed = some out ∧
      out.store.objects.countP (fun q => isPageObj q.2) =
        doc.pages.length ∧
      (∃ pg, out.store.lookup out.pagesId = some (Obj.Dict pg) ∧
        dictGet pg "Count" =
          some (Obj.Integer (doc.pages.length : Int)) ∧
        dictGet pg "Kids" = some (Obj.Arr out.pageIds)) ∧
      out.pageIds.length = doc.pages.length ∧
      (∀ (k : Nat) (page : PdfPage), doc.pages[k]? = some page →
        ∃ pid pd, out.pageIds[k]? = some (Obj.Reference pid) ∧
          out.store.lookup pid = some (Obj.Dict pd) ∧
          dictGet pd "Type" = some (Obj.Name "Page")) ∧
      (∃ flatIds iR uR, out.flatOcgs = flatIds.map Obj.Reference ∧
        List.Forall₂ (fun oid nm => out.store.lookup oid =
            some (ocgDict nm iR uR))
          flatIds (doc.pages.map (fun p =>
            p.layers.map (fun l => l.name))).flatten) ∧
      out.flatOcgs.length =
        (doc.pages.map (fun p => p.layers.length)).sum ∧
      (∃ cat, out.store.lookup out.catalogId = some (Obj.Dict cat) ∧
        dictGet cat "OCProperties" = some (Obj.Dict
          [("OCGs", Obj.Arr out.flatOcgs),
           ("D", Obj.Dict
             [("Order", Obj.Arr out.flatOcgs),
              ("RBGroups", Obj.Arr []),
              ("ON", Obj.Arr out.flatOcgs)])])) := by
  obtain ⟨out, hsave, _, _, _, hlen, hpp, _, ⟨pg, hpg1, _, hpg3, hpg4⟩,
    ⟨hcat1, _, hcat3⟩, ⟨flatIds, iR, uR, hfl2, hfor⟩, _, _, hcount⟩ :=
    save_spec doc seed hb hidx
  have hresE : ∀ pr ∈ doc.pages.enum,
      dictGet (pageResources (saveCtx doc).fontDictId pr.2) "Type" =
        none := by
    refine enum_forall_lift ?_
    intro k page hp
    exact pageResources_type_none (saveCtx doc).fontDictId page
      (hres page (List.getElem?_mem hp))
  refine ⟨out, hsave, hcount hpf hfonts hresE, ⟨pg, hpg1, hpg3, hpg4⟩,
    hlen, ?_, ⟨flatIds, iR, uR, hfl2, hfor⟩, ?_, ⟨_, hcat1, hcat3⟩⟩
  · intro k page hp
    have hke : doc.pages.enum[k]? = some (k, page) := by
      rw [List.getElem?_enum, hp, Option.map_some']
    obtain ⟨pid, pd, h1, h2, h3, _⟩ := hpp k (k, page) hke
    exact ⟨pid, pd, h1, h2, h3⟩
  · rw [hfl2, List.length_map, List.Forall₂.length_eq hfor,
      List.length_flatten]
    simp [List.map_map, Function.comp_def, List.length_map]

/-- A one-page, one-layer document over a fresh store, for exercising
the export path on concrete input. -/
def fixLayer : PdfLayer := ⟨"Layer 1", [], []⟩

def fixPage : PdfPage := ⟨0, 500, 500, [fixLayer]⟩

def fixDate : OffsetDateTime := ⟨2020, 1, 1, 0, 0, 0⟩

def fixMeta : PdfMetadata :=
  ⟨"Title", false, "PDF/X-3:2002", fixDate, fixDate, none, none, none⟩

def fixDoc : PdfDocument :=
  ⟨[fixPage], [], emptyStore, "DOCID", none, fixMeta⟩

/-- The same document with one registered font. -/
def fixDocF : PdfDocument :=
  ⟨[fixPage], [("F0", Obj.Dict [])], emptyStore, "DOCID", none, fixMeta⟩

lemma fixDoc_bounded : fixDoc.innerDoc.Bounded := by
  intro p hp
  exact absurd hp (by simp [fixDoc, emptyStore])

lemma fixDoc_indexed : PagesIndexed fixDoc := by
  intro i p h
  cases i with
  | zero =>
      rw [← Option.some.inj h]
      rfl
  | succ n => exact Option.noConfusion h

lemma fixDocF_bounded : fixDocF.innerDoc.Bounded := by
  intro p hp
  exact absurd hp (by simp [fixDocF, emptyStore])

lemma fixDocF_indexed : PagesIndexed fixDocF := by
  intro i p h
  cases i with
  | zero =>
      rw [← Option.some.inj h]
      rfl
  | succ n => exact Option.noConfusion h

/-- Witness for C5 at a concrete one-page document. -/
theorem C5_page_tree_and_ocg_list_witness :
    ∃ out, fixDoc.save 0 = some out ∧
      out.store.objects.countP (fun q => isPageObj q.2) =
        fixDoc.pages.length ∧
      (∃ pg, out.store.lookup out.pagesId = some (Obj.Dict pg) ∧
        dictGet pg "Count" =
          some (Obj.Integer (fixDoc.pages.length : Int)) ∧
        dictGet pg "Kids" = some (Obj.Arr out.pageIds)) ∧
      out.pageIds.length = fixDoc.pages.length ∧
      (∀ (k : Nat) (page : PdfPage), fixDoc.pages[k]? = some page →
        ∃ pid pd, out.pageIds[k]? = some (Obj.Reference pid) ∧
          out.store.lookup pid = some (Obj.Dict pd) ∧
          dictGet pd "Type" = some (Obj.Name "Page")) ∧
      (∃ flatIds iR uR, out.flatOcgs = flatIds.map Obj.Reference ∧
        List.Forall₂ (fun oid nm => out.store.lookup oid =
            some (ocgDict nm iR uR))
          flatIds (fixDoc.pages.map (fun p =>
            p.layers.map (fun l => l.name))).flatten) ∧
      out.flatOcgs.length =
        (fixDoc.pages.map (fun p => p.layers.length)).sum ∧
      (∃ cat, out.store.lookup out.catalogId = some (Obj.Dict cat) ∧
        dictGet cat "OCProperties" = some (Obj.Dict
          [("OCGs", Obj.Arr out.flatOcgs),
           ("D", Obj.Dict
             [("Order", Obj.Arr out.flatOcgs),
              ("RBGroups", Obj.Arr []),
              ("ON", Obj.Arr out.flatOcgs)])])) :=
  C5_page_tree_and_ocg_list fixDoc 0 fixDoc_bounded fixDoc_indexed
    (by intro p hp; exact absurd hp (by simp [fixDoc, emptyStore]))
    rfl
    (by
      intro page hpg l hl
      rcases List.mem_singleton.mp hpg with rfl
      rcases List.mem_singleton.mp hl with rfl
      rfl)

/-- C8.  For every exported page: if the union of the page layer
resource tables is empty and no font dictionary was registered, the page
dictionary has no Resources entry at all; if any fonts were registered,
a single shared font dictionary object exists and every page Resources
dictionary references that same object id under Font. -/
theorem C8_resources_and_shared_fonts (doc : PdfDocument) (seed : Nat)
    (hb : doc.innerDoc.Bounded) (hidx : PagesIndexed doc) :
    ∃ out, doc.save seed = some out ∧
      (doc.fonts = [] →
        ∀ (k : Nat) (page : PdfPage), doc.pages[k]? = some page →
          (collect_resources_and_streams page []).1 = [] →
          ∃ pid pd, out.pageIds[k]? = some (Obj.Reference pid) ∧
            out.store.lookup pid = some (Obj.Dict pd) ∧
            dictGet pd "Resources" = none) ∧
      (0 < doc.fonts.length →
        ∃ fid, out.store.lookup fid = some (Obj.Dict doc.fonts) ∧
          ∀ (k : Nat) (page : PdfPage), doc.pages[k]? = some page →
            ∃ pid pd rid rd,
              out.pageIds[k]? = some (Obj.Reference pid) ∧
              out.store.lookup pid = some (Obj.Dict pd) ∧
              dictGet pd "Resources" = some (Obj.Reference rid) ∧
              out.store.lookup rid = some (Obj.Dict rd) ∧
              dictGet rd "Font" = some (Obj.Reference fid)) := by
  obtain ⟨out, hsave, _, _, _, _, hpp, _, _, _, _, hfsome, hfnone, _⟩ :=
    save_spec doc seed hb hidx
  refine ⟨out, hsave, ?_, ?_⟩
  · intro hf0 k page hp hu
    have hke : doc.pages.enum[k]? = some (k, page) := by
      rw [List.getElem?_enum, hp, Option.map_some']
    obtain ⟨pid, pd, h1, h2, _, h4⟩ := hpp k (k, page) hke
    have hfd : (saveCtx doc).fontDictId = none := hfnone (by rw [hf0]; rfl)
    rw [hfd] at h4
    have hul : pageResources none ((k, page) : Nat × PdfPage).2 = [] := hu
    rw [hul] at h4
    simp only [List.length_nil, lt_irrefl, if_false] at h4
    exact ⟨pid, pd, h1, h2, h4⟩
  · intro hflen
    obtain ⟨fid, hfd, hlkf⟩ := hfsome hflen
    refine ⟨fid, hlkf, ?_⟩
    intro k page hp
    have hke : doc.pages.enum[k]? = some (k, page) := by
      rw [List.getElem?_enum, hp, Option.map_some']
    obtain ⟨pid, pd, h1, h2, _, h4⟩ := hpp k (k, page) hke
    rw [hfd] at h4
    have hlp : 0 <
        (pageResources (some fid) ((k, page) : Nat × PdfPage).2).length :=
      dictSet_length_pos (collect_resources_and_streams page []).1 "Font"
        (Obj.Reference fid)
    rw [if_pos hlp] at h4
    obtain ⟨rid, hr1, hr2⟩ := h4
    refine ⟨pid, pd, rid, pageResources (some fid) page, h1, h2, hr1, hr2,
      ?_⟩
    exact dictGet_dictSet_self _ _ _

/-- Witness for C8 at a concrete one-page document with one font. -/
theorem C8_resources_and_shared_fonts_witness :
    ∃ out, fixDocF.save 0 = some out ∧
      (fixDocF.fonts = [] →
        ∀ (k : Nat) (page : PdfPage), fixDocF.pages[k]? = some page →
          (collect_resources_and_streams page []).1 = [] →
          ∃ pid pd, out.pageIds[k]? = some (Obj.Reference pid) ∧
            out.store.lookup pid = some (Obj.Dict pd) ∧
            dictGet pd "Resources" = none) ∧
      (0 < fixDocF.fonts.length →
        ∃ fid, out.store.lookup fid = some (Obj.Dict fixDocF.fonts) ∧
          ∀ (k : Nat) (page : PdfPage), fixDocF.pages[k]? = some page →
            ∃ pid pd rid rd,
              out.pageIds[k]? = some (Obj.Reference pid) ∧
              out.store.lookup pid = some (Obj.Dict pd) ∧
              dictGet pd "Resources" = some (Obj.Reference rid) ∧
              out.store.lookup rid = some (Obj.Dict rd) ∧
              dictGet rd "Font" = some (Obj.Reference fid)) :=
  C8_resources_and_shared_fonts fixDocF 0 fixDocF_bounded fixDocF_indexed

/-- C10.  The trailer ID entry is a two-element array holding the
document identifier and the instance identifier; when no instance
identifier was supplied a freshly generated random string is used, and
`random_character_string_32` always returns exactly 32 characters. -/
theorem C10_trailer_id_and_random_string (doc : PdfDocument) (seed : Nat)
    (hb : doc.innerDoc.Bounded) (hidx : PagesIndexed doc) :
    ∃ out, doc.save seed = some out ∧
      dictGet out.trailer "ID" = some (Obj.Arr
        [Obj.Str (strBytes doc.documentId) StrFmt.Literal,
         Obj.Str (strBytes (match doc.instanceId with
           | some i => i
           | none => (random_character_string_32 seed).1))
           StrFmt.Literal]) ∧
      (doc.instanceId = none →
        dictGet out.trailer "ID" = some (Obj.Arr
          [Obj.Str (strBytes doc.documentId) StrFmt.Literal,
           Obj.Str (strBytes (random_character_string_32 seed).1)
             StrFmt.Literal])) ∧
      ∀ s, ((random_character_string_32 s).1).length = 32 := by
  obtain ⟨out, hsave, _, _, htr, _⟩ := save_spec doc seed hb hidx
  have hid : dictGet out.trailer "ID" = some (Obj.Arr
      [Obj.Str (strBytes doc.documentId) StrFmt.Literal,
       Obj.Str (strBytes (match doc.instanceId with
         | some i => i
         | none => (random_character_string_32 seed).1))
         StrFmt.Literal]) := by
    rw [htr]
    rfl
  refine ⟨out, hsave, hid, ?_, random_character_string_32_length⟩
  intro hnone
  rw [hid, hnone]

/-- Witness for C10 at a concrete document without an explicit instance
identifier. -/
theorem C10_trailer_id_and_random_string_witness :
    ∃ out, fixDoc.save 7 = some out ∧
      dictGet out.trailer "ID" = some (Obj.Arr
        [Obj.Str (strBytes fixDoc.documentId) StrFmt.Literal,
         Obj.Str (strBytes (match fixDoc.instanceId with
           | some i => i
           | none => (random_character_string_32 7).1))
           StrFmt.Literal]) ∧
      (fixDoc.instanceId = none →
        dictGet out.trailer "ID" = some (Obj.Arr
          [Obj.Str (strBytes fixDoc.documentId) StrFmt.Literal,
           Obj.Str (strBytes (random_character_string_32 7).1)
             StrFmt.Literal])) ∧
      ∀ s, ((random_character_string_32 s).1).length = 32 :=
  C10_trailer_id_and_random_string fixDoc 7 fixDoc_bounded fixDoc_indexed
